import Mathlib

/-!
Verification of the HFT-PacketFilter hot-path core against its specification.

Shallow embedding of the four hot-path components:
  * `LockFreeQueue`   — src/hft_packetfilter/core/c_extensions/lock_free_queue.pyx
  * `MemoryPool`      — the `HighPerformanceMemoryPool` Cython class
  * `parsePacketFast` — the `FastPacketParser` Cython class
  * `Tracker`         — the `UltraLowLatencyTracker` Cython class

Machine integers are modelled as `Nat` with explicit `% 2^32` / `% 2^64`
reductions at every update of a `uint32_t` / `uint64_t` field.  C `double`
values are modelled as exact rationals (`ℚ`): every floating-point operation
the tracker performs (division by 1000, addition, multiplication, order
comparison) is tracked exactly; claims about doubles carry an explicit
"within ULP" tolerance, and the counterexamples below use values on which
binary64 arithmetic is exact, so the rational model is conclusive for them.

The embedding is sequential: each Cython method is a function from a state
to a state.  The lock-free retry loops (`while True: ... continue`) are
embedded as `Option`-valued single passes: `none` means the loop would spin
again with an unchanged state, i.e. the call diverges in a single-threaded
execution; every theorem about a run is conditioned on the run being
defined.
-/

namespace HFTPF

def U32 : Nat := 2 ^ 32
def U64 : Nat := 2 ^ 64

/-! ## Lock-free queue (lock_free_queue.pyx)

`queue_node` carries a `void* data` pointer to a malloc'd copy of
`str(data).encode('utf-8')` plus its length.  The payload is modelled as the
Python string itself (`enqueue` serialises with `str`, which is the identity
on `str` inputs; `dequeue` decodes the bytes back, the identity whenever the
UTF-8 length fits the `uint32_t` size field).  A NULL pointer is `none`. -/

structure QueueNode where
  data : Option String
  dataSize : Nat       -- uint32_t
  sequence : Nat       -- uint64_t
  deriving Repr, DecidableEq, Inhabited

structure LockFreeQueue where
  nodes : List QueueNode
  capacity : Nat       -- uint32_t
  mask : Nat           -- uint32_t
  headSeq : Nat        -- volatile uint64_t
  tailSeq : Nat        -- volatile uint64_t
  committedSeq : Nat   -- volatile uint64_t
  totalEnqueued : Nat  -- uint64_t
  totalDequeued : Nat  -- uint64_t
  totalFailedEnqueues : Nat  -- uint64_t
  totalFailedDequeues : Nat  -- uint64_t
  initialized : Bool
  deriving Repr, DecidableEq

def DEFAULT_QUEUE_SIZE : Nat := 65536

/-- `LockFreeQueue._initialize_nodes`: every node gets `data = NULL`,
`data_size = 0`, `sequence = i`. -/
def initializeNodes (capacity : Nat) : List QueueNode :=
  (List.range capacity).map fun i => { data := none, dataSize := 0, sequence := i }

/-- `LockFreeQueue.__cinit__(capacity)`.  The argument is a `uint32_t`
(hence the `% U32`).  A capacity of zero or a non-power-of-two is silently
replaced by `DEFAULT_QUEUE_SIZE`; the `malloc` of the node array is assumed
to succeed (on failure the constructor raises `MemoryError`, the only
failure path, and no queue exists). -/
def mkLockFreeQueue (capacityArg : Nat) : LockFreeQueue :=
  let c0 := capacityArg % U32
  let capacity := if c0 = 0 ∨ c0 &&& (c0 - 1) ≠ 0 then DEFAULT_QUEUE_SIZE else c0
  { nodes := initializeNodes capacity
    capacity := capacity
    mask := capacity - 1
    headSeq := 0, tailSeq := 0, committedSeq := 0
    totalEnqueued := 0, totalDequeued := 0
    totalFailedEnqueues := 0, totalFailedDequeues := 0
    initialized := true }

/-- The `compare_and_swap(<volatile int*>&seq64, old, new)` call in the
source casts a 64-bit sequence counter to a 32-bit `int`: only the low
32 bits are compared and stored (little-endian host).  Sequentially the
compare always succeeds (the word was just read); the store replaces the
low 32 bits of the old 64-bit value. -/
def casStore32 (old new : Nat) : Nat := old - old % U32 + new % U32

/-- `LockFreeQueue._try_enqueue_fast`.  One pass of the retry loop:
`some (true, q')` publishes the payload, `some (false, q)` reports a full
queue, `none` is the `continue` branch (sequentially a livelock). -/
def tryEnqueueFast (q : LockFreeQueue) (data : String) (dataSize : Nat) :
    Option (Bool × LockFreeQueue) :=
  let currentTail := q.tailSeq
  let nextTail := (currentTail + 1) % U64
  let index := currentTail &&& q.mask
  let node := q.nodes.getD index default
  if node.sequence ≠ currentTail then
    if node.sequence < currentTail then some (false, q) else none
  else
    some (true, { q with
      tailSeq := casStore32 currentTail nextTail
      nodes := q.nodes.set index
        { data := some data, dataSize := dataSize, sequence := nextTail } })

/-- `LockFreeQueue._try_dequeue_fast`.  `some (some payload, q')` on
success, `some (none, q)` on empty, `none` for the `continue` branch. -/
def tryDequeueFast (q : LockFreeQueue) :
    Option (Option (Option String × Nat) × LockFreeQueue) :=
  let currentHead := q.headSeq
  let nextHead := (currentHead + 1) % U64
  let index := currentHead &&& q.mask
  let node := q.nodes.getD index default
  if node.sequence ≠ nextHead then
    if node.sequence < nextHead then some (none, q) else none
  else
    some (some (node.data, node.dataSize), { q with
      headSeq := casStore32 currentHead nextHead
      nodes := q.nodes.set index
        { data := none, dataSize := 0, sequence := (nextHead + q.mask) % U64 } })

/-- `LockFreeQueue.enqueue(data)` restricted to string payloads.  The
source serialises with `str(data)` — the identity on `str`; `enqueuePy`
below adds that stage for arbitrary objects — encodes to UTF-8 and
`memcpy`s `data_size = len % 2^32` bytes into a malloc'd buffer.  The node
payload is modelled as the string itself, which coincides with the copied
buffer exactly when the UTF-8 length is below `2^32`; for larger payloads
the code truncates the copy, which is why the amended C2 is scoped to the
sub-`2^32`-byte domain.  The `PyMem_Malloc` of the copy is assumed to
succeed (its failure path increments `total_failed_enqueues` and returns
`False` without touching the ring). -/
def enqueue (q : LockFreeQueue) (data : String) : Option (Bool × LockFreeQueue) :=
  if q.initialized = false then some (false, q)
  else
    let dataSize := data.utf8ByteSize % U32
    match tryEnqueueFast q data dataSize with
    | none => none
    | some (true, q') =>
        some (true, { q' with totalEnqueued := (q'.totalEnqueued + 1) % U64 })
    | some (false, q') =>
        some (false, { q' with totalFailedEnqueues := (q'.totalFailedEnqueues + 1) % U64 })

/-- `LockFreeQueue.dequeue()`.  On ring success with a non-NULL pointer the
source decodes the buffer's `data_size` bytes back to a Python string; for
payloads below `2^32` UTF-8 bytes that buffer holds the whole serialised
string, so the model returns the stored string (for larger payloads the
code would decode a truncated buffer — the amended C2's size hypothesis
excludes them).  On an empty ring, or when the stored pointer is NULL, it
returns `None`.  No statistics counter is touched. -/
def dequeue (q : LockFreeQueue) : Option (Option String × LockFreeQueue) :=
  match tryDequeueFast q with
  | none => none
  | some (none, q') => some (none, q')
  | some (some (d, _), q') => some (d, q')

/-- `LockFreeQueue.size()`: `tail_seq - head_seq` (uint64 subtraction; the
reachable states below always have `head ≤ tail`). -/
def queueSize (q : LockFreeQueue) : Nat := q.tailSeq - q.headSeq

/-- `LockFreeQueue.is_empty()`. -/
def isEmpty (q : LockFreeQueue) : Bool := q.headSeq = q.tailSeq

/-- `LockFreeQueue.is_full()`. -/
def isFull (q : LockFreeQueue) : Bool := q.capacity ≤ q.tailSeq - q.headSeq

/-- `LockFreeQueue.capacity_remaining()`: `max(0, capacity - size())` in
Python integer arithmetic. -/
def capacityRemaining (q : LockFreeQueue) : Int :=
  max 0 ((q.capacity : Int) - (queueSize q : Int))

/-- The counter fields of the dict returned by
`LockFreeQueue.get_statistics()`.  The two success-rate percentages are
exact-rational images of the `double` expressions in the source. -/
structure QueueStats where
  capacity : Nat
  size : Nat
  capacityRemaining : Int
  totalEnqueued : Nat
  totalDequeued : Nat
  totalFailedEnqueues : Nat
  totalFailedDequeues : Nat
  enqueueSuccessRate : ℚ
  dequeueSuccessRate : ℚ
  isEmpty : Bool
  isFull : Bool
  deriving Repr, DecidableEq

/-- `LockFreeQueue.get_statistics()`. -/
def getQueueStatistics (q : LockFreeQueue) : QueueStats :=
  { capacity := q.capacity
    size := queueSize q
    capacityRemaining := capacityRemaining q
    totalEnqueued := q.totalEnqueued
    totalDequeued := q.totalDequeued
    totalFailedEnqueues := q.totalFailedEnqueues
    totalFailedDequeues := q.totalFailedDequeues
    enqueueSuccessRate :=
      (q.totalEnqueued : ℚ) / (max 1 (q.totalEnqueued + q.totalFailedEnqueues) : Nat) * 100
    dequeueSuccessRate :=
      (q.totalDequeued : ℚ) / (max 1 (q.totalDequeued + q.totalFailedDequeues) : Nat) * 100
    isEmpty := isEmpty q
    isFull := isFull q }

/-- A single-producer/single-consumer client operation on one queue. -/
inductive QOp where
  | enq (v : String)
  | deq
  deriving Repr, DecidableEq

/-- One client call.  Returns the new queue, the values successfully
enqueued by the call (`[v]` when `enqueue` returned `True`) and the values
returned by a successful (non-`None`) `dequeue`. -/
def stepQ (q : LockFreeQueue) : QOp → Option (LockFreeQueue × List String × List String)
  | .enq v =>
      match enqueue q v with
      | none => none
      | some (ok, q') => some (q', if ok then [v] else [], [])
  | .deq =>
      match dequeue q with
      | none => none
      | some (r, q') => some (q', [], r.toList)

/-- A sequential run of client operations, collecting the successfully
enqueued values and the successfully dequeued values in call order. -/
def runQ (q : LockFreeQueue) : List QOp → Option (LockFreeQueue × List String × List String)
  | [] => some (q, [], [])
  | op :: ops =>
      match stepQ q op with
      | none => none
      | some (q', e₁, d₁) =>
          match runQ q' ops with
          | none => none
          | some (q'', e₂, d₂) => some (q'', e₁ ++ e₂, d₁ ++ d₂)

/-- A Python payload object handed to `enqueue`: the closed set of payload
shapes the claims exercise (`str(·)` is the identity on strings and the
decimal representation on ints). -/
inductive PyVal where
  | str (s : String)
  | int (n : Int)
  deriving Repr, DecidableEq

/-- Python's `str()` on a payload object. -/
def pyStr : PyVal → String
  | .str s => s
  | .int n => toString n

/-- `LockFreeQueue.enqueue(data)` on an arbitrary payload object: the
source's `str(data).encode('utf-8')` first applies `str`, after which the
string path of `enqueue` takes over. -/
def enqueuePy (q : LockFreeQueue) (data : PyVal) : Option (Bool × LockFreeQueue) :=
  enqueue q (pyStr data)

/-- `LockFreeQueue.dequeue()` as seen by a client that hands in arbitrary
objects: the value coming back from `data_bytes.decode('utf-8')` is always
a Python string, whatever was enqueued. -/
def dequeuePy (q : LockFreeQueue) : Option (Option PyVal × LockFreeQueue) :=
  (dequeue q).map fun r => (r.1.map PyVal.str, r.2)

/-! ## High-performance memory pool (`HighPerformanceMemoryPool`)

The arena base pointer is abstracted away: a block's `data` pointer is
identified with its `offset` into the arena (the source threads its free
list through the descriptor array and recovers a descriptor from a pointer
by comparing offsets).  The Python dict `allocated_views`, keyed by
`id(memoryview)`, is modelled as a partial map from view identities to
offsets; object identities of live views are distinct, modelled by a fresh
counter. -/

structure MemoryBlock where
  data : List Nat      -- the block's bytes in the arena
  size : Nat           -- uint32_t
  offset : Nat         -- uint32_t
  inUse : Bool
  deriving Repr, DecidableEq, Inhabited

structure MemoryPool where
  blocks : List MemoryBlock       -- all_blocks[0 .. num_blocks)
  freeList : List Nat             -- the chain of descriptor indices from free_blocks
  poolSize : Nat                  -- uint32_t
  blockSize : Nat                 -- uint32_t
  numBlocks : Nat                 -- uint32_t
  blocksAllocated : Nat           -- uint32_t
  blocksFree : Nat                -- uint32_t
  totalAllocations : Nat          -- uint64_t
  totalDeallocations : Nat        -- uint64_t
  allocatedViews : Nat → Option Nat  -- Python dict: id(memview) → pointer (offset)
  nextViewId : Nat                -- freshness of Python object identities
  initialized : Bool

/-- `HighPerformanceMemoryPool.__cinit__(pool_size, block_size)`: the arena
and descriptor `malloc`s are assumed to succeed (failure raises
`MemoryError` and no pool exists).  `_initialize_blocks` chains block `i` to
block `i+1`, so the initial free list is `0, 1, ..., num_blocks-1`. -/
def mkMemoryPool (poolSize blockSize : Nat) : MemoryPool :=
  let numBlocks := poolSize / blockSize
  { blocks := (List.range numBlocks).map fun i =>
      { data := List.replicate blockSize 0
        size := blockSize
        offset := i * blockSize
        inUse := false }
    freeList := List.range numBlocks
    poolSize := poolSize
    blockSize := blockSize
    numBlocks := numBlocks
    blocksAllocated := 0
    blocksFree := numBlocks
    totalAllocations := 0
    totalDeallocations := 0
    allocatedViews := fun _ => none
    nextViewId := 0
    initialized := true }

/-- `HighPerformanceMemoryPool._allocate_block_fast`: pop the free-list
head, mark it in use, bump the `uint32_t`/`uint64_t` counters (unsigned
wraparound made explicit).  Returns the block's data pointer (offset). -/
def allocateBlockFast (p : MemoryPool) : Option Nat × MemoryPool :=
  match p.freeList with
  | [] => (none, p)                 -- pool exhausted
  | i :: rest =>
      let b := p.blocks.getD i default
      (some b.offset,
        { p with
          blocks := p.blocks.set i { b with inUse := true }
          freeList := rest
          blocksAllocated := (p.blocksAllocated + 1) % U32
          blocksFree := (p.blocksFree + (U32 - 1)) % U32
          totalAllocations := (p.totalAllocations + 1) % U64 })

/-- The block-lookup loop of `_deallocate_block_fast`: the index of the
first descriptor whose offset matches (`for i in range(num_blocks): ...
break`). -/
def findBlockIdx (blocks : List MemoryBlock) (offset : Nat) : Option Nat :=
  match blocks with
  | [] => none
  | b :: rest =>
      if b.offset = offset then some 0
      else (findBlockIdx rest offset).map (· + 1)

/-- `HighPerformanceMemoryPool._deallocate_block_fast(ptr)`: scan the
descriptor array for the block whose offset matches, ignore the call when
no block matches or the block is not in use (invalid pointer / double
free), otherwise zero the block, push it on the free list and update the
counters. -/
def deallocateBlockFast (p : MemoryPool) (offset : Nat) : MemoryPool :=
  match findBlockIdx p.blocks offset with
  | none => p
  | some i =>
      let b := p.blocks.getD i default
      if b.inUse = false then p
      else
        { p with
          blocks := p.blocks.set i
            { data := List.replicate b.size 0, size := b.size, offset := b.offset,
              inUse := false }
          freeList := i :: p.freeList
          blocksAllocated := (p.blocksAllocated + (U32 - 1)) % U32
          blocksFree := (p.blocksFree + 1) % U32
          totalDeallocations := (p.totalDeallocations + 1) % U64 }

/-- `HighPerformanceMemoryPool.allocate(size)`: the requested size is
ignored.  On success a fresh memoryview over the block is created and
tracked in `allocated_views`; the returned handle is the view's identity. -/
def poolAllocate (p : MemoryPool) : Option Nat × MemoryPool :=
  match allocateBlockFast p with
  | (none, p') => (none, p')
  | (some ptr, p') =>
      let vid := p'.nextViewId
      (some vid,
        { p' with
          allocatedViews := fun k => if k = vid then some ptr else p'.allocatedViews k
          nextViewId := vid + 1 })

/-- `HighPerformanceMemoryPool.deallocate(memview)`: `None` is ignored; a
view identity not present in `allocated_views` is ignored; otherwise the
dict entry is deleted and the underlying block released. -/
def poolDeallocate (p : MemoryPool) (memview : Option Nat) : MemoryPool :=
  match memview with
  | none => p
  | some vid =>
      match p.allocatedViews vid with
      | none => p
      | some ptr =>
          deallocateBlockFast
            { p with allocatedViews := fun k => if k = vid then none else p.allocatedViews k }
            ptr

/-- A client operation on the pool through its public interface. -/
inductive PoolOp where
  | alloc
  | dealloc (memview : Option Nat)

/-- One public call (the handle an `alloc` returns is dropped here; a
`dealloc` may present any view identity, including foreign or stale ones). -/
def stepPool (p : MemoryPool) : PoolOp → MemoryPool
  | .alloc => (poolAllocate p).2
  | .dealloc v => poolDeallocate p v

/-- A sequential run of public pool calls. -/
def runPool (p : MemoryPool) (ops : List PoolOp) : MemoryPool :=
  ops.foldl stepPool p

/-! ## Fast packet parser (`FastPacketParser`)

A frame is a list of bytes.  Multi-byte header fields are loaded
little-endian from the packed structs (the host is little-endian; the
source swaps explicitly with `_ntohs`/`_ntohl`).  Out-of-range reads yield
0, matching the fact that the source only reads fields after the length
guards.  The `packets_parsed`/`bytes_processed` counters are updated just
before the trading check and affect no claim, so the parser is embedded as
the pure function of its input that the spec describes. -/

def readByte (d : List Nat) (i : Nat) : Nat := d.getD i 0

/-- A little-endian `uint16_t` load from the frame. -/
def loadLE16 (d : List Nat) (off : Nat) : Nat :=
  readByte d off ||| (readByte d (off + 1) <<< 8)

/-- A little-endian `uint32_t` load from the frame. -/
def loadLE32 (d : List Nat) (off : Nat) : Nat :=
  readByte d off ||| (readByte d (off + 1) <<< 8) |||
  (readByte d (off + 2) <<< 16) ||| (readByte d (off + 3) <<< 24)

/-- `FastPacketParser._ntohs`. -/
def ntohs (v : Nat) : Nat := ((v &&& 0xFF) <<< 8) ||| ((v >>> 8) &&& 0xFF)

/-- `FastPacketParser._ntohl`. -/
def ntohl (v : Nat) : Nat :=
  ((v &&& 0xFF) <<< 24) ||| (((v >>> 8) &&& 0xFF) <<< 16) |||
  (((v >>> 16) &&& 0xFF) <<< 8) ||| ((v >>> 24) &&& 0xFF)

def NYSE_PORTS : List Nat := [4001, 9001, 8001, 7001]
def NASDAQ_PORTS : List Nat := [4002, 9002, 8002, 7002]
def CBOE_PORTS : List Nat := [4003, 9003, 8003, 7003]

/-- `FastPacketParser._is_exchange_port`. -/
def isExchangePort (port : Nat) : Bool :=
  NYSE_PORTS.contains port || NASDAQ_PORTS.contains port || CBOE_PORTS.contains port

/-- `FastPacketParser._get_exchange_id`: 1 = NYSE, 2 = NASDAQ, 3 = CBOE,
0 = unknown, scanning the port tables in that order. -/
def getExchangeId (port : Nat) : Nat :=
  if NYSE_PORTS.contains port then 1
  else if NASDAQ_PORTS.contains port then 2
  else if CBOE_PORTS.contains port then 3
  else 0

/-- `FastPacketParser._is_fix_protocol(payload, payload_len)` where
`payload` points at offset `start` of the frame: requires at least 8
payload bytes and the ASCII prefix `8=FIX`. -/
def isFixProtocol (d : List Nat) (start : Nat) (payloadLen : Int) : Bool :=
  if payloadLen < 8 then false
  else
    readByte d start = 56 && readByte d (start + 1) = 61 &&
    readByte d (start + 2) = 70 && readByte d (start + 3) = 73 &&
    readByte d (start + 4) = 88

/-- The dict `parse_packet_fast` returns for a trading packet. -/
structure ParsedPacket where
  srcPort : Nat
  destPort : Nat
  protocol : String
  exchangeId : Nat
  exchangeName : String
  isFix : Bool
  packetSize : Nat
  srcIp : Nat
  destIp : Nat
  deriving Repr, DecidableEq

/-- `FastPacketParser.parse_packet_fast(packet_data)`. -/
def parsePacketFast (d : List Nat) : Option ParsedPacket :=
  let packetLen := d.length
  if packetLen < 14 then none                              -- minimum Ethernet frame
  else if ntohs (loadLE16 d 12) ≠ 0x0800 then none         -- not IPv4
  else if packetLen < 34 then none                         -- minimum IPv4 + Ethernet
  else
    let versionIhl := readByte d 14
    if versionIhl >>> 4 ≠ 4 then none                      -- not IPv4
    else
      let ipHeaderLen := (versionIhl &&& 0x0F) * 4
      if ipHeaderLen < 20 ∨ packetLen < 14 + ipHeaderLen then none
      else
        let proto := readByte d 23
        let srcIp := ntohl (loadLE32 d 26)
        let destIp := ntohl (loadLE32 d 30)
        if proto = 6 then                                  -- TCP
          if packetLen < 14 + ipHeaderLen + 20 then none
          else
            let srcPort := ntohs (loadLE16 d (14 + ipHeaderLen))
            let destPort := ntohs (loadLE16 d (14 + ipHeaderLen + 2))
            if isExchangePort srcPort || isExchangePort destPort then
              let e := getExchangeId destPort
              let exchangeId := if e = 0 then getExchangeId srcPort else e
              let tcpHeaderLen := ((readByte d (14 + ipHeaderLen + 12) >>> 4) &&& 0x0F) * 4
              let payloadLen : Int :=
                (packetLen : Int) - 14 - (ipHeaderLen : Int) - (tcpHeaderLen : Int)
              let isFix :=
                if payloadLen > 0 then
                  isFixProtocol d (14 + ipHeaderLen + tcpHeaderLen) payloadLen
                else false
              some { srcPort := srcPort, destPort := destPort, protocol := "TCP"
                     exchangeId := exchangeId
                     exchangeName := ["Unknown", "NYSE", "NASDAQ", "CBOE"].getD exchangeId ""
                     isFix := isFix, packetSize := packetLen
                     srcIp := srcIp, destIp := destIp }
            else none                                      -- non-trading traffic
        else if proto = 17 then                            -- UDP
          if packetLen < 14 + ipHeaderLen + 8 then none
          else
            let srcPort := ntohs (loadLE16 d (14 + ipHeaderLen))
            let destPort := ntohs (loadLE16 d (14 + ipHeaderLen + 2))
            if isExchangePort srcPort || isExchangePort destPort then
              let e := getExchangeId destPort
              let exchangeId := if e = 0 then getExchangeId srcPort else e
              let payloadLen : Int := (packetLen : Int) - 14 - (ipHeaderLen : Int) - 8
              let isFix :=
                if payloadLen > 0 then
                  isFixProtocol d (14 + ipHeaderLen + 8) payloadLen
                else false
              some { srcPort := srcPort, destPort := destPort, protocol := "UDP"
                     exchangeId := exchangeId
                     exchangeName := ["Unknown", "NYSE", "NASDAQ", "CBOE"].getD exchangeId ""
                     isFix := isFix, packetSize := packetLen
                     srcIp := srcIp, destIp := destIp }
            else none                                      -- non-trading traffic
        else none                                          -- other L4 protocol

/-- The spec contract of §4.3, written from its words: the parser rejects a
frame iff it is too short (for Ethernet, for Ethernet+IPv4, or for the L4
header), not IPv4 (EtherType or version field), has an IHL below 5, or no
derived L4 port matches a configured exchange port (in particular when no
L4 port is derived at all). -/
def parserRejects (d : List Nat) : Prop :=
  let n := d.length
  let versionIhl := readByte d 14
  let ihl := versionIhl &&& 0x0F
  let proto := readByte d 23
  n < 14 ∨
  ntohs (loadLE16 d 12) ≠ 0x0800 ∨
  n < 34 ∨
  versionIhl >>> 4 ≠ 4 ∨
  ihl < 5 ∨
  n < 14 + ihl * 4 ∨
  (proto = 6 ∧ n < 14 + ihl * 4 + 20) ∨
  (proto = 17 ∧ n < 14 + ihl * 4 + 8) ∨
  ¬ ((proto = 6 ∧ 14 + ihl * 4 + 20 ≤ n ∧
        (isExchangePort (ntohs (loadLE16 d (14 + ihl * 4))) = true ∨
         isExchangePort (ntohs (loadLE16 d (14 + ihl * 4 + 2))) = true)) ∨
      (proto = 17 ∧ 14 + ihl * 4 + 8 ≤ n ∧
        (isExchangePort (ntohs (loadLE16 d (14 + ihl * 4))) = true ∨
         isExchangePort (ntohs (loadLE16 d (14 + ihl * 4 + 2))) = true)))

instance (d : List Nat) : Decidable (parserRejects d) := by
  unfold parserRejects
  infer_instance

/-! ## Ultra-low latency tracker (`UltraLowLatencyTracker`)

`double` fields are exact rationals (see the header note).  The sample ring
is a total map from slot index to sample; `_get_time_ns()` reads the wall
clock, which is passed in as an explicit `nowNs` argument. -/

structure LatencySample where
  timestampNs : Nat    -- uint64_t
  latencyNs : Nat      -- uint32_t
  exchangeId : Nat     -- uint16_t
  protocolType : Nat   -- uint8_t
  deriving Repr, DecidableEq

structure Tracker where
  samples : Nat → LatencySample   -- ring of max_samples slots
  sampleCount : Nat               -- int
  maxSamples : Nat                -- int
  totalSamples : Nat              -- uint64_t
  minLatencyUs : ℚ                -- double
  maxLatencyUs : ℚ                -- double
  sumLatencyUs : ℚ                -- double
  sumSquaredLatencyUs : ℚ         -- double
  violationCount : Nat            -- uint64_t
  targetLatencyUs : ℚ             -- double
  initialized : Bool

/-- `UltraLowLatencyTracker.__cinit__(max_samples, target_latency_us)`.
The sample `malloc` is assumed to succeed; `start_time_ns` (never read by
any statistic) is taken as an argument of the model.  Note the minimum
starts at the sentinel `999999.0`, the maximum at `0.0`. -/
def mkTracker (maxSamples : Nat) (targetLatencyUs : ℚ) : Tracker :=
  { samples := fun _ => { timestampNs := 0, latencyNs := 0, exchangeId := 0, protocolType := 0 }
    sampleCount := 0
    maxSamples := maxSamples
    totalSamples := 0
    minLatencyUs := 999999
    maxLatencyUs := 0
    sumLatencyUs := 0
    sumSquaredLatencyUs := 0
    violationCount := 0
    targetLatencyUs := targetLatencyUs
    initialized := true }

/-- `UltraLowLatencyTracker._add_sample_fast(latency_ns, exchange_id,
protocol_type)`: store into the ring at `sample_count % max_samples`
(timestamped with the wall clock `nowNs`) and update the running
statistics.  The `double` fields carry the exact rational values of these
updates: the embedding tracks the infinitely-precise results that the
source's binary64 arithmetic approximates to rounding error, so exact
equalities proved over them are the reference values of the spec's
within-ULP claims — they do not assert bit-exactness of the binary64
code — while a divergence beyond every ULP bound (as in the C6
counterexample, whose inputs and comparisons binary64 handles exactly)
refutes the code outright. -/
def addSampleFast (t : Tracker) (nowNs : Nat) (latencyNs exchangeId protocolType : Nat) :
    Tracker :=
  let index := t.sampleCount % t.maxSamples
  let latencyUs : ℚ := (latencyNs : ℚ) / 1000
  { t with
    samples := fun i =>
      if i = index then
        { timestampNs := nowNs, latencyNs := latencyNs
          exchangeId := exchangeId, protocolType := protocolType }
      else t.samples i
    minLatencyUs := if latencyUs < t.minLatencyUs then latencyUs else t.minLatencyUs
    maxLatencyUs := if t.maxLatencyUs < latencyUs then latencyUs else t.maxLatencyUs
    sumLatencyUs := t.sumLatencyUs + latencyUs
    sumSquaredLatencyUs := t.sumSquaredLatencyUs + latencyUs * latencyUs
    violationCount :=
      if t.targetLatencyUs < latencyUs then (t.violationCount + 1) % U64 else t.violationCount
    sampleCount := t.sampleCount + 1
    totalSamples := (t.totalSamples + 1) % U64 }

/-- The C cast `<uint32_t>(x)` of a non-negative `double`: truncation
toward zero (the cast is well defined only for `0 ≤ x < 2^32`; the
theorems below stay in that range). -/
def ratToUint32 (x : ℚ) : Nat := (Int.toNat ⌊x⌋) % U32

/-- `UltraLowLatencyTracker.record_latency(latency_us, exchange_id,
protocol)`: quantise to a `uint32_t` nanosecond count, map the protocol
string to its tag, and add the sample. -/
def recordLatency (t : Tracker) (nowNs : Nat) (latencyUs : ℚ)
    (exchangeId : Nat) (protocol : String) : Tracker :=
  let latencyNs := ratToUint32 (latencyUs * 1000)
  let exchId := exchangeId % 2 ^ 16
  let protoType : Nat :=
    if protocol = "TCP" then 1
    else if protocol = "UDP" then 2
    else if protocol = "FIX" then 3
    else 0
  addSampleFast t nowNs latencyNs exchId protoType

/-- `UltraLowLatencyTracker.record_packet_latency(send_time_ns,
recv_time_ns, exchange_id, protocol)`: drop the sample when
`recv_time_ns <= send_time_ns`, otherwise clamp the difference to the
`uint32_t` ceiling and record it. -/
def recordPacketLatency (t : Tracker) (nowNs : Nat) (sendTimeNs recvTimeNs : Nat)
    (exchangeId : Nat) (protocol : String) : Tracker :=
  if recvTimeNs ≤ sendTimeNs then t
  else
    let latencyNsRaw := recvTimeNs - sendTimeNs
    let latencyNs := min latencyNsRaw 4294967295
    let latencyUs : ℚ := (latencyNs : ℚ) / 1000
    recordLatency t nowNs latencyUs exchangeId protocol

/-- `UltraLowLatencyTracker.get_percentile(percentile)`: snapshot the
active part of the ring, sort ascending, index at
`<int>((percentile/100) * (actual_count-1))`. -/
def getPercentile (t : Tracker) (percentile : ℚ) : ℚ :=
  if t.sampleCount = 0 then 0
  else
    let actualCount := min t.sampleCount t.maxSamples
    let latencies := (List.range actualCount).map fun i => ((t.samples i).latencyNs : ℚ) / 1000
    let sorted := latencies.mergeSort fun a b => decide (a ≤ b)
    let index := Int.toNat ⌊percentile / 100 * ((actualCount : ℚ) - 1)⌋
    sorted.getD index 0

/-- The dict `get_statistics()` returns.  `std_us` (a floating-point square
root, irrational in general) is left out of the model: no claim concerns
it and it feeds into nothing else. -/
structure TrackerStats where
  count : Nat
  minUs : ℚ
  maxUs : ℚ
  meanUs : ℚ
  p50Us : ℚ
  p95Us : ℚ
  p99Us : ℚ
  p999Us : ℚ
  violationRate : ℚ
  targetUs : ℚ

/-- `UltraLowLatencyTracker.get_statistics()`. -/
def getStatistics (t : Tracker) : TrackerStats :=
  if t.sampleCount = 0 then
    { count := 0, minUs := 0, maxUs := 0, meanUs := 0
      p50Us := 0, p95Us := 0, p99Us := 0, p999Us := 0
      violationRate := 0, targetUs := t.targetLatencyUs }
  else
    { count := t.totalSamples
      minUs := t.minLatencyUs
      maxUs := t.maxLatencyUs
      meanUs := t.sumLatencyUs / (t.totalSamples : ℚ)
      p50Us := getPercentile t 50
      p95Us := getPercentile t 95
      p99Us := getPercentile t 99
      p999Us := getPercentile t (999 / 10)
      violationRate := (t.violationCount : ℚ) / (t.totalSamples : ℚ) * 100
      targetUs := t.targetLatencyUs }

/-- One `record_latency` call: its wall-clock instant and arguments. -/
structure LatencyCall where
  nowNs : Nat
  latencyUs : ℚ
  exchangeId : Nat
  protocol : String

/-- A sequence of `record_latency` calls. -/
def recordAll (t : Tracker) (calls : List LatencyCall) : Tracker :=
  calls.foldl (fun t c => recordLatency t c.nowNs c.latencyUs c.exchangeId c.protocol) t

/-! ## Concrete scenario data -/

/-- Ethernet II / IPv4 / TCP frame: EtherType `0x0800`, protocol 6,
`10.0.0.1:54321 → 10.0.0.2:4001`, 20-byte IP and TCP headers, TCP payload
`"8=FIX.4.2\x019="` (12 bytes). -/
def nyseFixFrame : List Nat :=
  [0, 0, 0, 0, 0, 0, 0, 0, 0, 0, 0, 0, 0x08, 0x00,
   0x45, 0x00, 0, 0, 0, 0, 0, 0, 64, 6, 0, 0, 10, 0, 0, 1, 10, 0, 0, 2,
   0xD4, 0x31, 0x0F, 0xA1, 0, 0, 0, 0, 0, 0, 0, 0, 0x50, 0, 0, 0, 0, 0, 0, 0,
   56, 61, 70, 73, 88, 46, 52, 46, 50, 1, 57, 61]

/-- Same layout with source port 4002 (a NASDAQ port) and destination port
4001 (a NYSE port): both ports match an exchange. -/
def dualPortFrame : List Nat :=
  [0, 0, 0, 0, 0, 0, 0, 0, 0, 0, 0, 0, 0x08, 0x00,
   0x45, 0x00, 0, 0, 0, 0, 0, 0, 64, 6, 0, 0, 10, 0, 0, 1, 10, 0, 0, 2,
   0x0F, 0xA2, 0x0F, 0xA1, 0, 0, 0, 0, 0, 0, 0, 0, 0x50, 0, 0, 0, 0, 0, 0, 0]

/-- Same layout with source port 4002 (a NASDAQ port) and destination port
53 (no exchange): only the source port matches. -/
def srcFallbackFrame : List Nat :=
  [0, 0, 0, 0, 0, 0, 0, 0, 0, 0, 0, 0, 0x08, 0x00,
   0x45, 0x00, 0, 0, 0, 0, 0, 0, 64, 6, 0, 0, 10, 0, 0, 1, 10, 0, 0, 2,
   0x0F, 0xA2, 0x00, 0x35, 0, 0, 0, 0, 0, 0, 0, 0, 0x50, 0, 0, 0, 0, 0, 0, 0]

/-- Nine successive `enqueue` calls with distinct values. -/
def ninePushes : List QOp :=
  [.enq "a0", .enq "a1", .enq "a2", .enq "a3", .enq "a4", .enq "a5", .enq "a6",
   .enq "a7", .enq "a8"]

/-- Eight successive `enqueue` calls (the first eight of `ninePushes`). -/
def eightPushes : List QOp := ninePushes.take 8

/-- The first eight values of `ninePushes`. -/
def eightVals : List String := ["a0", "a1", "a2", "a3", "a4", "a5", "a6", "a7"]

/-- The invariant the pool's public operations preserve: the descriptor
array has `num_blocks` entries, the free list holds exactly the indices of
the not-in-use descriptors (each once), `blocks_free` counts it, and
`blocks_allocated + blocks_free = num_blocks`. -/
def PoolInv (p : MemoryPool) : Prop :=
  p.blocks.length = p.numBlocks ∧
  p.numBlocks < U32 ∧
  p.blocksFree = p.freeList.length ∧
  p.blocksAllocated + p.blocksFree = p.numBlocks ∧
  p.freeList.Nodup ∧
  (∀ i ∈ p.freeList, i < p.numBlocks ∧ (p.blocks.getD i default).inUse = false) ∧
  (∀ i, i < p.numBlocks → (p.blocks.getD i default).inUse = false → i ∈ p.freeList)

/-- The invariant a fresh power-of-two queue maintains under sequential
client operations.  `E` is the list of successfully enqueued values, `D`
the list of successfully dequeued values.  `tail_seq` counts enqueues,
`head_seq` counts dequeues, `D` is the corresponding prefix of `E`, and
every slot either holds the still-queued item of a ticket `t` (sequence
`t+1`) or is free, carrying as its sequence the ticket that will next fill
it. -/
def QInv (k : Nat) (E D : List String) (q : LockFreeQueue) : Prop :=
  q.capacity = 2 ^ k ∧
  q.mask = 2 ^ k - 1 ∧
  q.nodes.length = 2 ^ k ∧
  q.initialized = true ∧
  q.tailSeq = E.length ∧
  q.headSeq = D.length ∧
  D.length ≤ E.length ∧
  D = E.take D.length ∧
  ∀ i, i < 2 ^ k →
    (∃ t, t % 2 ^ k = i ∧ D.length ≤ t ∧ t < E.length ∧ E.length ≤ t + 2 ^ k ∧
      (q.nodes.getD i default).sequence = t + 1 ∧
      (q.nodes.getD i default).data = some (E.getD t "")) ∨
    (∃ u, u % 2 ^ k = i ∧ E.length ≤ u ∧ u < E.length + 2 ^ k ∧ u < D.length + 2 ^ k ∧
      (q.nodes.getD i default).sequence = u ∧
      (q.nodes.getD i default).data = none)
/-- The queue state after `enqueue "a"` on a fresh capacity-2 queue. -/
def c2FinalQueue : LockFreeQueue :=
  { nodes := [{ data := some "a", dataSize := 1, sequence := 1 },
              { data := none, dataSize := 0, sequence := 1 }]
    capacity := 2, mask := 1, headSeq := 0, tailSeq := 1, committedSeq := 0
    totalEnqueued := 1, totalDequeued := 0, totalFailedEnqueues := 0
    totalFailedDequeues := 0, initialized := true }
/-- The queue state after `enqueue "a"` then `dequeue` on a fresh
capacity-2 queue: one successful dequeue, yet `total_dequeued = 0`. -/
def c10FinalQueue : LockFreeQueue :=
  { nodes := [{ data := none, dataSize := 0, sequence := 2 },
              { data := none, dataSize := 0, sequence := 1 }]
    capacity := 2, mask := 1, headSeq := 1, tailSeq := 1, committedSeq := 0
    totalEnqueued := 1, totalDequeued := 0, totalFailedEnqueues := 0
    totalFailedDequeues := 0, initialized := true }

/-! ## Theorems -/

/-- C1 (counterexample): constructing a `LockFreeQueue` with the
non-power-of-two capacity 3 is NOT rejected: construction succeeds and
silently produces an initialized queue whose capacity is the default
65536, contradicting the claimed fail-fast behaviour. -/
theorem queue_nonpow2_not_rejected_cex :
    (mkLockFreeQueue 3).initialized = true ∧
    (mkLockFreeQueue 3).capacity = 65536 ∧ (65536 : Nat) ≠ 3 :=
  ⟨rfl, rfl, by decide⟩

/-- C1 (amended): a capacity that is zero or not a power of two (as a
`uint32_t`) is silently replaced by the default 65536 — the constructor
does not fail — while a non-zero power-of-two capacity is kept. -/
theorem queue_capacity_fallback (c : Nat) :
    ((c % U32 = 0 ∨ (c % U32) &&& (c % U32 - 1) ≠ 0) →
      (mkLockFreeQueue c).capacity = DEFAULT_QUEUE_SIZE ∧
      (mkLockFreeQueue c).initialized = true) ∧
    (¬ (c % U32 = 0 ∨ (c % U32) &&& (c % U32 - 1) ≠ 0) →
      (mkLockFreeQueue c).capacity = c % U32) := by
  constructor <;> intro h
  · exact ⟨by simp [mkLockFreeQueue, if_pos h], rfl⟩
  · simp [mkLockFreeQueue, if_neg h]

/-- C1 witness: at capacity 3 the fallback branch applies. -/
theorem queue_capacity_fallback_witness :
    (mkLockFreeQueue 3).capacity = DEFAULT_QUEUE_SIZE ∧
    (mkLockFreeQueue 3).initialized = true :=
  (queue_capacity_fallback 3).1 (by decide)

/-- C4: the NYSE TCP frame `10.0.0.1:54321 → 10.0.0.2:4001` with payload
starting `8=FIX` parses to a record with `exchange_id = 1` (NYSE),
`is_fix = true` and `protocol = "TCP"`; when both ports match exchanges the
destination port decides (`dualPortFrame`: src NASDAQ / dst NYSE ⇒ 1), and
when only the source port matches, classification falls back to it
(`srcFallbackFrame`: src NASDAQ / dst 53 ⇒ 2). -/
theorem parse_nyse_fix_packet :
    parsePacketFast nyseFixFrame = some
      { srcPort := 54321, destPort := 4001, protocol := "TCP", exchangeId := 1,
        exchangeName := "NYSE", isFix := true, packetSize := 66,
        srcIp := 167772161, destIp := 167772162 } ∧
    (parsePacketFast dualPortFrame).map ParsedPacket.exchangeId = some 1 ∧
    (parsePacketFast srcFallbackFrame).map ParsedPacket.exchangeId = some 2 :=
  ⟨rfl, rfl, rfl⟩

/-- C8: on a fresh capacity-8 queue, of nine sequential `enqueue` calls the
first eight succeed and the ninth fails (one failed enqueue is counted)
without touching the ring (`nodes`, `head_seq`, `tail_seq` equal the state
after eight pushes); eight subsequent `dequeue` calls return the first
eight values in insertion order, and a ninth `dequeue` returns `None`. -/
theorem queue_capacity8_scenario :
    (runQ (mkLockFreeQueue 8) ninePushes).map (fun r => r.2.1) = some eightVals ∧
    (runQ (mkLockFreeQueue 8) ninePushes).map
        (fun r => (r.1.nodes, r.1.headSeq, r.1.tailSeq)) =
      (runQ (mkLockFreeQueue 8) eightPushes).map
        (fun r => (r.1.nodes, r.1.headSeq, r.1.tailSeq)) ∧
    (runQ (mkLockFreeQueue 8) ninePushes).map (fun r => r.1.totalFailedEnqueues) = some 1 ∧
    (runQ (mkLockFreeQueue 8) (ninePushes ++ List.replicate 8 QOp.deq)).map (fun r => r.2.2) =
      some eightVals ∧
    ((runQ (mkLockFreeQueue 8) (ninePushes ++ List.replicate 8 QOp.deq)).bind
        (fun r => dequeue r.1)).map (fun r => r.1) = some none :=
  ⟨rfl, rfl, rfl, rfl, rfl⟩

/-- C9: a `record_packet_latency` call with `recv_time_ns ≤ send_time_ns`
returns before recording anything: the whole tracker state — sample count,
total samples, min, max, running sums, violation count and the sample
ring — is unchanged. -/
theorem record_packet_latency_invalid_dropped (t : Tracker) (nowNs sendNs recvNs eid : Nat)
    (protocol : String) (h : recvNs ≤ sendNs) :
    recordPacketLatency t nowNs sendNs recvNs eid protocol = t := by
  unfold recordPacketLatency
  exact if_pos h

/-- C9 witness: dropping a sample with `recv = 5 ≤ 10 = send` leaves a
fresh tracker untouched. -/
theorem record_packet_latency_invalid_dropped_witness :
    recordPacketLatency (mkTracker 4 500) 0 10 5 1 "TCP" = mkTracker 4 500 :=
  record_packet_latency_invalid_dropped _ _ _ _ _ _ (by decide)

theorem list_getD_set_self {α : Type _} (l : List α) (i : Nat) (b d : α)
    (h : i < l.length) : (l.set i b).getD i d = b := by
  rw [List.getD_eq_getElem?_getD, List.getElem?_set_self h]
  rfl

theorem list_getD_set_ne {α : Type _} (l : List α) {i j : Nat} (b d : α)
    (h : i ≠ j) : (l.set i b).getD j d = l.getD j d := by
  rw [List.getD_eq_getElem?_getD, List.getElem?_set_ne h, ← List.getD_eq_getElem?_getD]

theorem findBlockIdx_spec (blocks : List MemoryBlock) (off : Nat) :
    ∀ i, findBlockIdx blocks off = some i →
      i < blocks.length ∧ (blocks.getD i default).offset = off := by
  induction blocks with
  | nil => intro i h; simp [findBlockIdx] at h
  | cons b rest ih =>
      intro i h
      by_cases hb : b.offset = off
      · rw [findBlockIdx, if_pos hb] at h
        cases h
        exact ⟨Nat.succ_pos _, hb⟩
      · rw [findBlockIdx, if_neg hb] at h
        cases hr : findBlockIdx rest off with
        | none => rw [hr] at h; cases h
        | some j =>
            rw [hr] at h
            cases h
            obtain ⟨hlt, hoff⟩ := ih j hr
            exact ⟨Nat.succ_lt_succ hlt, hoff⟩

theorem findBlockIdx_set_same (blocks : List MemoryBlock) (off : Nat) :
    ∀ (i : Nat) (b' : MemoryBlock),
      (blocks.getD i default).offset = b'.offset →
      findBlockIdx (blocks.set i b') off = findBlockIdx blocks off := by
  induction blocks with
  | nil => intro i b' _; rfl
  | cons b rest ih =>
      intro i b' h
      cases i with
      | zero =>
          have hbb : b.offset = b'.offset := h
          show findBlockIdx (b' :: rest) off = findBlockIdx (b :: rest) off
          rw [findBlockIdx, findBlockIdx, hbb]
      | succ j =>
          show findBlockIdx (b :: rest.set j b') off = findBlockIdx (b :: rest) off
          rw [findBlockIdx, findBlockIdx, ih j b' h]

theorem deallocateBlockFast_views (p : MemoryPool) (off : Nat) :
    (deallocateBlockFast p off).allocatedViews = p.allocatedViews := by
  unfold deallocateBlockFast
  cases findBlockIdx p.blocks off with
  | none => rfl
  | some i =>
      dsimp only
      split <;> rfl

theorem deallocateBlockFast_not_found (p : MemoryPool) (off : Nat)
    (h : findBlockIdx p.blocks off = none) : deallocateBlockFast p off = p := by
  unfold deallocateBlockFast
  rw [h]

theorem deallocateBlockFast_not_inUse (p : MemoryPool) (off i : Nat)
    (h : findBlockIdx p.blocks off = some i)
    (hb : (p.blocks.getD i default).inUse = false) : deallocateBlockFast p off = p := by
  unfold deallocateBlockFast
  rw [h]
  dsimp only
  rw [if_pos hb]

theorem deallocateBlockFast_idem (p : MemoryPool) (off : Nat) :
    deallocateBlockFast (deallocateBlockFast p off) off = deallocateBlockFast p off := by
  cases h : findBlockIdx p.blocks off with
  | none =>
      rw [deallocateBlockFast_not_found p off h, deallocateBlockFast_not_found p off h]
  | some i =>
      obtain ⟨hlt, hoff⟩ := findBlockIdx_spec p.blocks off i h
      by_cases hb : (p.blocks.getD i default).inUse = false
      · rw [deallocateBlockFast_not_inUse p off i h hb,
          deallocateBlockFast_not_inUse p off i h hb]
      · have h1 : deallocateBlockFast p off =
            { p with
              blocks := p.blocks.set i
                { data := List.replicate (p.blocks.getD i default).size 0
                  size := (p.blocks.getD i default).size
                  offset := (p.blocks.getD i default).offset
                  inUse := false }
              freeList := i :: p.freeList
              blocksAllocated := (p.blocksAllocated + (U32 - 1)) % U32
              blocksFree := (p.blocksFree + 1) % U32
              totalDeallocations := (p.totalDeallocations + 1) % U64 } := by
          unfold deallocateBlockFast
          rw [h]
          dsimp only
          rw [if_neg hb]
        rw [h1]
        apply deallocateBlockFast_not_inUse _ _ i
        · show findBlockIdx
            (p.blocks.set i
              { data := List.replicate (p.blocks.getD i default).size 0
                size := (p.blocks.getD i default).size
                offset := (p.blocks.getD i default).offset
                inUse := false }) off = some i
          exact (findBlockIdx_set_same p.blocks off i
            { data := List.replicate (p.blocks.getD i default).size 0
              size := (p.blocks.getD i default).size
              offset := (p.blocks.getD i default).offset
              inUse := false } rfl).trans h
        · show ((p.blocks.set i
              { data := List.replicate (p.blocks.getD i default).size 0
                size := (p.blocks.getD i default).size
                offset := (p.blocks.getD i default).offset
                inUse := false }).getD i default).inUse = false
          rw [list_getD_set_self p.blocks i _ default hlt]

theorem poolDeallocate_untracked (p : MemoryPool) (v : Nat)
    (h : p.allocatedViews v = none) : poolDeallocate p (some v) = p := by
  show (match p.allocatedViews v with
      | none => p
      | some ptr =>
          deallocateBlockFast
            { p with allocatedViews := fun k => if k = v then none else p.allocatedViews k }
            ptr) = p
  rw [h]

theorem poolDeallocate_twice (p : MemoryPool) (v : Nat) :
    poolDeallocate (poolDeallocate p (some v)) (some v) = poolDeallocate p (some v) := by
  cases h : p.allocatedViews v with
  | none => rw [poolDeallocate_untracked p v h, poolDeallocate_untracked p v h]
  | some ptr =>
      have h1 : poolDeallocate p (some v) =
          deallocateBlockFast
            { p with allocatedViews := fun k => if k = v then none else p.allocatedViews k }
            ptr := by
        show (match p.allocatedViews v with
            | none => p
            | some ptr =>
                deallocateBlockFast
                  { p with
                    allocatedViews := fun k => if k = v then none else p.allocatedViews k }
                  ptr) = _
        rw [h]
      rw [h1]
      apply poolDeallocate_untracked
      rw [deallocateBlockFast_views]
      simp

/-- C7: releasing a handle that `allocated_views` does not track (a foreign
view, or one already released) leaves the pool completely unchanged —
counters, free list, tracking dict and block contents; releasing the same
handle twice makes the second release a no-op; and at the descriptor level
a repeated `_deallocate_block_fast` on the same pointer is a no-op (the
`in_use` flag detects the double free). -/
theorem pool_release_violation_noop (p : MemoryPool) (v : Nat) (off : Nat) :
    (p.allocatedViews v = none → poolDeallocate p (some v) = p) ∧
    poolDeallocate (poolDeallocate p (some v)) (some v) = poolDeallocate p (some v) ∧
    deallocateBlockFast (deallocateBlockFast p off) off = deallocateBlockFast p off :=
  ⟨poolDeallocate_untracked p v, poolDeallocate_twice p v, deallocateBlockFast_idem p off⟩

/-- C7 witness: on a fresh 2-block pool, releasing the never-issued view
identity 0 is a no-op. -/
theorem pool_release_violation_noop_witness :
    poolDeallocate (mkMemoryPool 8 4) (some 0) = mkMemoryPool 8 4 :=
  (pool_release_violation_noop (mkMemoryPool 8 4) 0 0).1 rfl

set_option maxHeartbeats 1000000 in
/-- C3: `parse_packet_fast` returns `None` if and only if the frame is too
short (below 14 bytes of Ethernet, 34 bytes of Ethernet+IPv4, or too short
for the fixed L4 header), not IPv4 (EtherType or version nibble), has an
IHL below 5, or no derived L4 port matches a configured exchange port —
with no L4 port derived at all for protocols other than TCP and UDP, so
such frames are rejected too; in every other case it returns a record. -/
theorem parse_none_iff_reject (d : List Nat) :
    parsePacketFast d = none ↔ parserRejects d := by
  simp only [parsePacketFast, parserRejects]
  generalize readByte d 14 &&& 0x0F = t
  generalize ntohs (loadLE16 d 12) = et
  generalize readByte d 14 >>> 4 = ver
  generalize readByte d 23 = pr
  generalize ntohs (loadLE16 d (14 + t * 4)) = sp
  generalize ntohs (loadLE16 d (14 + t * 4 + 2)) = dp
  generalize isExchangePort sp = bs
  generalize isExchangePort dp = bd
  generalize d.length = n
  by_cases h1 : n < 14
  · rw [if_pos h1]
    exact iff_of_true rfl (Or.inl h1)
  rw [if_neg h1]
  by_cases h2 : et ≠ 2048
  · rw [if_pos h2]
    exact iff_of_true rfl (Or.inr (Or.inl h2))
  rw [if_neg h2]
  by_cases h3 : n < 34
  · rw [if_pos h3]
    exact iff_of_true rfl (Or.inr (Or.inr (Or.inl h3)))
  rw [if_neg h3]
  by_cases h4 : ver ≠ 4
  · rw [if_pos h4]
    exact iff_of_true rfl (Or.inr (Or.inr (Or.inr (Or.inl h4))))
  rw [if_neg h4]
  by_cases h5 : t * 4 < 20 ∨ n < 14 + t * 4
  · rw [if_pos h5]
    refine iff_of_true rfl ?_
    rcases h5 with h5 | h5
    · exact Or.inr (Or.inr (Or.inr (Or.inr (Or.inl (by omega)))))
    · exact Or.inr (Or.inr (Or.inr (Or.inr (Or.inr (Or.inl h5)))))
  rw [if_neg h5]
  by_cases h6 : pr = 6
  · rw [if_pos h6]
    by_cases h7 : n < 14 + t * 4 + 20
    · rw [if_pos h7]
      exact iff_of_true rfl
        (Or.inr (Or.inr (Or.inr (Or.inr (Or.inr (Or.inr (Or.inl ⟨h6, h7⟩)))))))
    rw [if_neg h7]
    by_cases h8 : (bs || bd) = true
    · rw [if_pos h8]
      refine iff_of_false (by simp) ?_
      intro hR
      rw [Bool.or_eq_true] at h8
      rcases hR with h | h | h | h | h | h | ⟨_, h⟩ | ⟨h17, _⟩ | h
      · omega
      · exact h2 h
      · omega
      · exact h4 h
      · omega
      · omega
      · omega
      · omega
      · exact h (Or.inl ⟨h6, by omega, h8⟩)
    · rw [if_neg h8]
      refine iff_of_true rfl ?_
      refine Or.inr (Or.inr (Or.inr (Or.inr (Or.inr (Or.inr (Or.inr (Or.inr ?_)))))))
      rw [Bool.or_eq_true] at h8
      rintro (⟨_, _, hm⟩ | ⟨h17, _, _⟩)
      · exact h8 hm
      · omega
  · rw [if_neg h6]
    by_cases h17 : pr = 17
    · rw [if_pos h17]
      by_cases h7 : n < 14 + t * 4 + 8
      · rw [if_pos h7]
        exact iff_of_true rfl
          (Or.inr (Or.inr (Or.inr (Or.inr (Or.inr (Or.inr (Or.inr (Or.inl ⟨h17, h7⟩))))))))
      rw [if_neg h7]
      by_cases h8 : (bs || bd) = true
      · rw [if_pos h8]
        refine iff_of_false (by simp) ?_
        intro hR
        rw [Bool.or_eq_true] at h8
        rcases hR with h | h | h | h | h | h | ⟨h6x, _⟩ | ⟨_, h⟩ | h
        · omega
        · exact h2 h
        · omega
        · exact h4 h
        · omega
        · omega
        · omega
        · omega
        · exact h (Or.inr ⟨h17, by omega, h8⟩)
      · rw [if_neg h8]
        refine iff_of_true rfl ?_
        refine Or.inr (Or.inr (Or.inr (Or.inr (Or.inr (Or.inr (Or.inr (Or.inr ?_)))))))
        rw [Bool.or_eq_true] at h8
        rintro (⟨h6x, _, _⟩ | ⟨_, _, hm⟩)
        · omega
        · exact h8 hm
    · rw [if_neg h17]
      refine iff_of_true rfl ?_
      refine Or.inr (Or.inr (Or.inr (Or.inr (Or.inr (Or.inr (Or.inr (Or.inr ?_)))))))
      rintro (⟨h6x, _, _⟩ | ⟨h17x, _, _⟩)
      · exact h6 h6x
      · exact h17 h17x

theorem ratToUint32_div1000 (n : Nat) (hn : n < U32) :
    ratToUint32 ((n : ℚ) / 1000 * 1000) = n := by
  have h : ((n : ℚ) / 1000) * 1000 = (n : ℚ) := by
    field_simp
  rw [h, ratToUint32, Int.floor_natCast]
  simp [Nat.mod_eq_of_lt hn]

theorem recordLatency_eq (t : Tracker) (now : Nat) (x : ℚ) (eid : Nat) (proto : String)
    (n : Nat) (hn : n < U32) (hx : x = (n : ℚ) / 1000) :
    recordLatency t now x eid proto =
      addSampleFast t now n (eid % 2 ^ 16)
        (if proto = "TCP" then 1 else if proto = "UDP" then 2
         else if proto = "FIX" then 3 else 0) := by
  subst hx
  simp only [recordLatency, ratToUint32_div1000 n hn]

theorem if_lt_eq_min (x m : ℚ) : (if x < m then x else m) = min m x := by
  rw [min_def]
  split_ifs <;> linarith

theorem if_lt_eq_max (x m : ℚ) : (if m < x then x else m) = max m x := by
  rw [max_def]
  split_ifs <;> linarith

theorem recordAll_stats (calls : List LatencyCall) :
    ∀ t : Tracker,
      (∀ c ∈ calls, ∃ n : Nat, n < U32 ∧ c.latencyUs = (n : ℚ) / 1000) →
      t.totalSamples + calls.length < U64 →
      (recordAll t calls).minLatencyUs =
          (calls.map LatencyCall.latencyUs).foldl min t.minLatencyUs ∧
      (recordAll t calls).maxLatencyUs =
          (calls.map LatencyCall.latencyUs).foldl max t.maxLatencyUs ∧
      (recordAll t calls).sumLatencyUs =
          t.sumLatencyUs + (calls.map LatencyCall.latencyUs).sum ∧
      (recordAll t calls).totalSamples = t.totalSamples + calls.length ∧
      (recordAll t calls).sampleCount = t.sampleCount + calls.length ∧
      (recordAll t calls).maxSamples = t.maxSamples ∧
      (recordAll t calls).targetLatencyUs = t.targetLatencyUs := by
  induction calls with
  | nil => intro t _ _; simp [recordAll]
  | cons c cs ih =>
      intro t hvals hlen
      obtain ⟨n, hn, hx⟩ := hvals c (List.mem_cons_self c cs)
      have hstep : recordAll t (c :: cs) =
          recordAll (recordLatency t c.nowNs c.latencyUs c.exchangeId c.protocol) cs := by
        simp [recordAll]
      set t' := recordLatency t c.nowNs c.latencyUs c.exchangeId c.protocol with ht'
      have hrl := recordLatency_eq t c.nowNs c.latencyUs c.exchangeId c.protocol n hn hx
      have hmin : t'.minLatencyUs = min t.minLatencyUs c.latencyUs := by
        rw [ht', hrl, addSampleFast]
        dsimp only
        rw [hx, if_lt_eq_min]
      have hmax : t'.maxLatencyUs = max t.maxLatencyUs c.latencyUs := by
        rw [ht', hrl, addSampleFast]
        dsimp only
        rw [hx, if_lt_eq_max]
      have hsum : t'.sumLatencyUs = t.sumLatencyUs + c.latencyUs := by
        rw [ht', hrl, addSampleFast]
        dsimp only
        rw [hx]
      have htot : t'.totalSamples = t.totalSamples + 1 := by
        rw [ht', hrl, addSampleFast]
        dsimp only
        have : t.totalSamples + 1 < U64 := by
          simp only [List.length_cons] at hlen
          omega
        exact Nat.mod_eq_of_lt this
      have hcnt : t'.sampleCount = t.sampleCount + 1 := by
        rw [ht', hrl, addSampleFast]
      have hms : t'.maxSamples = t.maxSamples := by
        rw [ht', hrl, addSampleFast]
      have htg : t'.targetLatencyUs = t.targetLatencyUs := by
        rw [ht', hrl, addSampleFast]
      have hvals' : ∀ c' ∈ cs, ∃ m : Nat, m < U32 ∧ c'.latencyUs = (m : ℚ) / 1000 :=
        fun c' hc' => hvals c' (List.mem_cons_of_mem c hc')
      have hlen' : t'.totalSamples + cs.length < U64 := by
        rw [htot]
        simp only [List.length_cons] at hlen
        omega
      obtain ⟨i1, i2, i3, i4, i5, i6, i7⟩ := ih t' hvals' hlen'
      rw [hstep]
      refine ⟨?_, ?_, ?_, ?_, ?_, ?_, ?_⟩
      · rw [i1, hmin]; simp [List.foldl_cons]
      · rw [i2, hmax]; simp [List.foldl_cons]
      · rw [i3, hsum]; simp [List.sum_cons]; ring
      · rw [i4, htot]; simp; omega
      · rw [i5, hcnt]; simp; omega
      · rw [i6, hms]
      · rw [i7, htg]


theorem foldl_min_le_init (xs : List ℚ) : ∀ a : ℚ, xs.foldl min a ≤ a := by
  induction xs with
  | nil => intro a; simp
  | cons x t ih =>
      intro a
      calc (x :: t).foldl min a = t.foldl min (min a x) := by simp
        _ ≤ min a x := ih (min a x)
        _ ≤ a := min_le_left a x

theorem foldl_min_le_mem (xs : List ℚ) : ∀ (a : ℚ) (y : ℚ), y ∈ xs → xs.foldl min a ≤ y := by
  induction xs with
  | nil => intro a y hy; cases hy
  | cons x t ih =>
      intro a y hy
      rcases List.mem_cons.mp hy with rfl | hy
      · calc (y :: t).foldl min a = t.foldl min (min a y) := by simp
          _ ≤ min a y := foldl_min_le_init t (min a y)
          _ ≤ y := min_le_right a y
      · exact ih (min a x) y hy

theorem foldl_min_mem_or (xs : List ℚ) : ∀ a : ℚ, xs.foldl min a ∈ xs ∨ xs.foldl min a = a := by
  induction xs with
  | nil => intro a; simp
  | cons x t ih =>
      intro a
      have h := ih (min a x)
      rcases h with h | h
      · exact Or.inl (List.mem_cons_of_mem x (by simpa using h))
      · rcases le_total a x with hax | hxa
        · right; simpa [min_eq_left hax] using h
        · left; simp only [List.foldl_cons]; rw [h, min_eq_right hxa]; exact List.mem_cons_self x t
      
theorem le_foldl_max_init (xs : List ℚ) : ∀ a : ℚ, a ≤ xs.foldl max a := by
  induction xs with
  | nil => intro a; simp
  | cons x t ih =>
      intro a
      calc a ≤ max a x := le_max_left a x
        _ ≤ t.foldl max (max a x) := ih (max a x)
        _ = (x :: t).foldl max a := by simp

theorem le_foldl_max_mem (xs : List ℚ) : ∀ (a : ℚ) (y : ℚ), y ∈ xs → y ≤ xs.foldl max a := by
  induction xs with
  | nil => intro a y hy; cases hy
  | cons x t ih =>
      intro a y hy
      rcases List.mem_cons.mp hy with rfl | hy
      · calc y ≤ max a y := le_max_right a y
          _ ≤ t.foldl max (max a y) := le_foldl_max_init t (max a y)
          _ = (y :: t).foldl max a := by simp
      · exact ih (max a x) y hy

theorem foldl_max_mem_or (xs : List ℚ) : ∀ a : ℚ, xs.foldl max a ∈ xs ∨ xs.foldl max a = a := by
  induction xs with
  | nil => intro a; simp
  | cons x t ih =>
      intro a
      have h := ih (max a x)
      rcases h with h | h
      · exact Or.inl (List.mem_cons_of_mem x (by simpa using h))
      · rcases le_total x a with hxa | hax
        · right; simpa [max_eq_left hxa] using h
        · left; simp only [List.foldl_cons]; rw [h, max_eq_right hax]; exact List.mem_cons_self x t


/-- C6 (amended): for a non-empty list of `record_latency` calls whose
latencies are whole numbers of nanoseconds below `2^32` ns (the range on
which the `uint32_t` quantisation is the identity), `get_statistics`
reports `max_us` equal to the maximum of the recorded values and `mean_us`
equal to their sum divided by their count — to within floating-point ULP,
as the original claim states: the equalities below are proved for the
exact-rational image of the double arithmetic, the reference values
against which that tolerance is measured — but `min_us` equals
`min(999999.0, min xs)`: the constructor's sentinel `999999.0` caps the
reported minimum (it is `fold min` starting from the sentinel), so
`min_us = min xs` only when some recorded value is at most 999999 µs, a
divergence that can reach `min xs − 999999` µs and that no ULP tolerance
covers. -/
theorem tracker_stats_minmaxmean (maxSamples : Nat) (target : ℚ) (calls : List LatencyCall)
    (hne : calls ≠ [])
    (hlen : calls.length < U64)
    (hvals : ∀ c ∈ calls, ∃ n : Nat, n < U32 ∧ c.latencyUs = (n : ℚ) / 1000) :
    (getStatistics (recordAll (mkTracker maxSamples target) calls)).minUs =
        (calls.map LatencyCall.latencyUs).foldl min 999999 ∧
    (getStatistics (recordAll (mkTracker maxSamples target) calls)).maxUs =
        (calls.map LatencyCall.latencyUs).foldl max 0 ∧
    (getStatistics (recordAll (mkTracker maxSamples target) calls)).meanUs =
        (calls.map LatencyCall.latencyUs).sum / (calls.length : ℚ) ∧
    (∀ y ∈ calls.map LatencyCall.latencyUs,
        (getStatistics (recordAll (mkTracker maxSamples target) calls)).minUs ≤ y) ∧
    ((getStatistics (recordAll (mkTracker maxSamples target) calls)).minUs ∈
        calls.map LatencyCall.latencyUs ∨
      (getStatistics (recordAll (mkTracker maxSamples target) calls)).minUs = 999999) ∧
    (∀ y ∈ calls.map LatencyCall.latencyUs,
        y ≤ (getStatistics (recordAll (mkTracker maxSamples target) calls)).maxUs) ∧
    (getStatistics (recordAll (mkTracker maxSamples target) calls)).maxUs ∈
        calls.map LatencyCall.latencyUs := by
  have h0 : (mkTracker maxSamples target).totalSamples + calls.length < U64 := by
    simpa [mkTracker] using hlen
  obtain ⟨i1, i2, i3, i4, i5, i6, i7⟩ := recordAll_stats calls (mkTracker maxSamples target)
    hvals h0
  set t := recordAll (mkTracker maxSamples target) calls with ht
  have hcnt : t.sampleCount = calls.length := by
    rw [i5]; simp [mkTracker]
  have hcnt0 : t.sampleCount ≠ 0 := by
    rw [hcnt]
    exact fun h => hne (List.length_eq_zero.mp h)
  have hstats : getStatistics t =
      { count := t.totalSamples
        minUs := t.minLatencyUs
        maxUs := t.maxLatencyUs
        meanUs := t.sumLatencyUs / (t.totalSamples : ℚ)
        p50Us := getPercentile t 50
        p95Us := getPercentile t 95
        p99Us := getPercentile t 99
        p999Us := getPercentile t (999 / 10)
        violationRate := (t.violationCount : ℚ) / (t.totalSamples : ℚ) * 100
        targetUs := t.targetLatencyUs } := by
    rw [getStatistics, if_neg hcnt0]
  have hmin : (getStatistics t).minUs = (calls.map LatencyCall.latencyUs).foldl min 999999 := by
    rw [hstats]
    dsimp only
    rw [i1]
    simp [mkTracker]
  have hmax : (getStatistics t).maxUs = (calls.map LatencyCall.latencyUs).foldl max 0 := by
    rw [hstats]
    dsimp only
    rw [i2]
    simp [mkTracker]
  have hxpos : ∀ y ∈ calls.map LatencyCall.latencyUs, 0 ≤ y := by
    intro y hy
    obtain ⟨c, hc, rfl⟩ := List.mem_map.mp hy
    obtain ⟨n, _, hxn⟩ := hvals c hc
    rw [hxn]
    positivity
  refine ⟨hmin, hmax, ?_, ?_, ?_, ?_, ?_⟩
  · rw [hstats]
    dsimp only
    rw [i3, i4]
    simp [mkTracker]
  · intro y hy
    rw [hmin]
    exact foldl_min_le_mem _ _ y hy
  · rw [hmin]
    exact foldl_min_mem_or _ _
  · intro y hy
    rw [hmax]
    exact le_foldl_max_mem _ _ y hy
  · rw [hmax]
    rcases foldl_max_mem_or (calls.map LatencyCall.latencyUs) 0 with h | h
    · exact h
    · obtain ⟨c, hc⟩ : ∃ c, c ∈ calls := by
        cases calls with
        | nil => exact absurd rfl hne
        | cons a l => exact ⟨a, List.mem_cons_self a l⟩
      have hmem : c.latencyUs ∈ calls.map LatencyCall.latencyUs :=
        List.mem_map_of_mem LatencyCall.latencyUs hc
      have h1 : c.latencyUs ≤ (calls.map LatencyCall.latencyUs).foldl max 0 :=
        le_foldl_max_mem _ _ _ hmem
      have h2 : 0 ≤ c.latencyUs := hxpos _ hmem
      have h3 : (calls.map LatencyCall.latencyUs).foldl max 0 = c.latencyUs := by
        rw [h] at h1 ⊢
        linarith
      rw [h3]
      exact hmem

/-- C6 (counterexample): after recording the single latency
`xs = [2000000.0]` µs (2 s, within the uint32 nanosecond range; binary64
arithmetic is exact on these values), `get_statistics` reports
`min_us = 999999.0`, not `min xs = 2000000.0`: the claimed equality with
the minimum of the recorded samples fails. -/
theorem tracker_min_sentinel_cex :
    (getStatistics (recordLatency (mkTracker 4 500) 0 2000000 1 "TCP")).minUs = 999999 ∧
    (999999 : ℚ) ≠ 2000000 := by
  have hx : (2000000 : ℚ) = ((2000000000 : Nat) : ℚ) / 1000 := by norm_num
  have hn : (2000000000 : Nat) < U32 := by norm_num [U32]
  rw [recordLatency_eq (mkTracker 4 500) 0 2000000 1 "TCP" 2000000000 hn hx]
  refine ⟨?_, by norm_num⟩
  rw [getStatistics, if_neg ?hcnt]
  case hcnt => simp [addSampleFast, mkTracker]
  dsimp only
  rw [addSampleFast]
  dsimp only
  rw [if_neg ?hlt]
  case hlt =>
    simp only [mkTracker]
    norm_num
  rfl


/-- C6 witness: two samples of 100 µs and 200 µs. -/
theorem tracker_stats_minmaxmean_witness :
    (getStatistics (recordAll (mkTracker 4 500)
        [⟨0, 100, 1, "TCP"⟩, ⟨0, 200, 2, "UDP"⟩])).minUs =
      ([100, 200] : List ℚ).foldl min 999999 := by
  have h := tracker_stats_minmaxmean 4 500 [⟨0, 100, 1, "TCP"⟩, ⟨0, 200, 2, "UDP"⟩]
    (by simp) (by norm_num [U64]) ?hv
  · exact h.1
  case hv =>
    intro c hc
    simp only [List.mem_cons, List.not_mem_nil, or_false] at hc
    rcases hc with rfl | rfl
    · exact ⟨100000, by norm_num [U32], by norm_num⟩
    · exact ⟨200000, by norm_num [U32], by norm_num⟩

theorem range_map_getD {α : Type _} (n : Nat) (f : Nat → α) (i : Nat) (d : α) (hi : i < n) :
    (((List.range n).map f).getD i d) = f i := by
  rw [List.getD_eq_getElem?_getD, List.getElem?_map, List.getElem?_range hi]
  rfl

theorem mem_of_nodup_bounded_length (l : List Nat) (n : Nat) (hnd : l.Nodup)
    (hsub : ∀ x ∈ l, x < n) (hlen : n ≤ l.length) : ∀ j, j < n → j ∈ l := by
  have hsub' : l ⊆ List.range n := fun x hx => List.mem_range.mpr (hsub x hx)
  have hsp : l.Subperm (List.range n) := hnd.subperm hsub'
  have hperm : l.Perm (List.range n) := hsp.perm_of_length_le (by simpa using hlen)
  intro j hj
  exact hperm.mem_iff.mpr (List.mem_range.mpr hj)

theorem mkMemoryPool_inv (ps bs : Nat) (hps : ps < U32) :
    PoolInv (mkMemoryPool ps bs) := by
  refine ⟨by simp [mkMemoryPool], ?_, by simp [mkMemoryPool], by simp [mkMemoryPool],
    by simp [mkMemoryPool, List.nodup_range], ?_, ?_⟩
  · show ps / bs < U32
    exact lt_of_le_of_lt (Nat.div_le_self ps bs) hps
  · intro i hi
    simp only [mkMemoryPool, List.mem_range] at hi
    refine ⟨hi, ?_⟩
    simp only [mkMemoryPool]
    rw [range_map_getD (ps / bs) _ i default hi]
  · intro i hi _
    simp only [mkMemoryPool, List.mem_range]
    exact hi

theorem allocateBlockFast_inv (p : MemoryPool) (hp : PoolInv p) :
    PoolInv (allocateBlockFast p).2 := by
  obtain ⟨hlen, hn, hfl, hsum, hnd, hmem, hcov⟩ := hp
  cases hfree : p.freeList with
  | nil =>
      have : (allocateBlockFast p).2 = p := by
        rw [allocateBlockFast, hfree]
      rw [this]
      exact ⟨hlen, hn, hfl, hsum, hnd, hmem, hcov⟩
  | cons i rest =>
      have hstep : (allocateBlockFast p).2 =
          { p with
            blocks := p.blocks.set i { p.blocks.getD i default with inUse := true }
            freeList := rest
            blocksAllocated := (p.blocksAllocated + 1) % U32
            blocksFree := (p.blocksFree + (U32 - 1)) % U32
            totalAllocations := (p.totalAllocations + 1) % U64 } := by
        rw [allocateBlockFast, hfree]
      rw [hstep]
      have hi_mem : i ∈ p.freeList := by rw [hfree]; exact List.mem_cons_self i rest
      have hi_lt : i < p.numBlocks := (hmem i hi_mem).1
      have hflen : p.blocksFree = rest.length + 1 := by rw [hfl, hfree]; rfl
      have hfree_le : p.blocksFree ≤ p.numBlocks := by omega
      have hU : U32 = 4294967296 := rfl
      have hn32 : p.numBlocks < 4294967296 := hU ▸ hn
      have hnd' : rest.Nodup := by
        rw [hfree] at hnd
        exact hnd.of_cons
      have hi_not : i ∉ rest := by
        rw [hfree] at hnd
        exact (List.nodup_cons.mp hnd).1
      refine ⟨?_, hn, ?_, ?_, hnd', ?_, ?_⟩
      · simpa [List.length_set] using hlen
      · show (p.blocksFree + (U32 - 1)) % U32 = rest.length
        rw [hU]
        omega
      · show (p.blocksAllocated + 1) % U32 + (p.blocksFree + (U32 - 1)) % U32 = p.numBlocks
        rw [hU]
        omega
      · intro j hj
        have hj' : j ∈ p.freeList := by rw [hfree]; exact List.mem_cons_of_mem i hj
        have hne : i ≠ j := fun h => hi_not (h ▸ hj)
        refine ⟨(hmem j hj').1, ?_⟩
        show ((p.blocks.set i _).getD j default).inUse = false
        rw [list_getD_set_ne p.blocks _ default hne]
        exact (hmem j hj').2
      · intro j hj hfalse
        by_cases hij : i = j
        · subst hij
          rw [list_getD_set_self p.blocks i _ default (hlen ▸ hi_lt)] at hfalse
          simp at hfalse
        · rw [list_getD_set_ne p.blocks _ default hij] at hfalse
          have := hcov j hj hfalse
          rw [hfree] at this
          rcases List.mem_cons.mp this with h | h
          · exact absurd h.symm hij
          · exact h


theorem deallocateBlockFast_inv (p : MemoryPool) (off : Nat) (hp : PoolInv p) :
    PoolInv (deallocateBlockFast p off) := by
  obtain ⟨hlen, hn, hfl, hsum, hnd, hmem, hcov⟩ := hp
  cases hfind : findBlockIdx p.blocks off with
  | none =>
      rw [deallocateBlockFast_not_found p off hfind]
      exact ⟨hlen, hn, hfl, hsum, hnd, hmem, hcov⟩
  | some i =>
      obtain ⟨hilt, hioff⟩ := findBlockIdx_spec p.blocks off i hfind
      by_cases hb : (p.blocks.getD i default).inUse = false
      · rw [deallocateBlockFast_not_inUse p off i hfind hb]
        exact ⟨hlen, hn, hfl, hsum, hnd, hmem, hcov⟩
      · have hstep : deallocateBlockFast p off =
            { p with
              blocks := p.blocks.set i
                { data := List.replicate (p.blocks.getD i default).size 0
                  size := (p.blocks.getD i default).size
                  offset := (p.blocks.getD i default).offset
                  inUse := false }
              freeList := i :: p.freeList
              blocksAllocated := (p.blocksAllocated + (U32 - 1)) % U32
              blocksFree := (p.blocksFree + 1) % U32
              totalDeallocations := (p.totalDeallocations + 1) % U64 } := by
          unfold deallocateBlockFast
          rw [hfind]
          dsimp only
          rw [if_neg hb]
        rw [hstep]
        have hi_lt : i < p.numBlocks := hlen ▸ hilt
        have hi_not : i ∉ p.freeList := fun hmem' => hb (hmem i hmem').2
        have hflt : p.freeList.length < p.numBlocks := by
          by_contra hge
          push_neg at hge
          have := mem_of_nodup_bounded_length p.freeList p.numBlocks hnd
            (fun x hx => (hmem x hx).1) hge i hi_lt
          exact hi_not this
        have hU : U32 = 4294967296 := rfl
        have hn32 : p.numBlocks < 4294967296 := hU ▸ hn
        refine ⟨?_, hn, ?_, ?_, ?_, ?_, ?_⟩
        · simpa [List.length_set] using hlen
        · show (p.blocksFree + 1) % U32 = (i :: p.freeList).length
          rw [hU]
          simp only [List.length_cons]
          omega
        · show (p.blocksAllocated + (U32 - 1)) % U32 + (p.blocksFree + 1) % U32 = p.numBlocks
          rw [hU]
          omega
        · exact List.nodup_cons.mpr ⟨hi_not, hnd⟩
        · intro j hj
          rcases List.mem_cons.mp hj with rfl | hj'
          · refine ⟨hi_lt, ?_⟩
            rw [list_getD_set_self p.blocks j _ default hilt]
          · have hne : i ≠ j := fun h => hi_not (h ▸ hj')
            refine ⟨(hmem j hj').1, ?_⟩
            rw [list_getD_set_ne p.blocks _ default hne]
            exact (hmem j hj').2
        · intro j hj hfalse
          by_cases hij : i = j
          · subst hij
            exact List.mem_cons_self i p.freeList
          · rw [list_getD_set_ne p.blocks _ default hij] at hfalse
            exact List.mem_cons_of_mem i (hcov j hj hfalse)


theorem poolAllocate_inv (p : MemoryPool) (hp : PoolInv p) : PoolInv (poolAllocate p).2 := by
  have h1 := allocateBlockFast_inv p hp
  unfold poolAllocate
  rcases h : allocateBlockFast p with ⟨_ | ptr, p1⟩
  · rw [h] at h1
    exact h1
  · rw [h] at h1
    exact h1

theorem poolDeallocate_inv (p : MemoryPool) (v : Option Nat) (hp : PoolInv p) :
    PoolInv (poolDeallocate p v) := by
  cases v with
  | none => exact hp
  | some vid =>
      cases hv : p.allocatedViews vid with
      | none => rw [poolDeallocate_untracked p vid hv]; exact hp
      | some ptr =>
          have heq : poolDeallocate p (some vid) =
              deallocateBlockFast
                { p with
                  allocatedViews := fun k => if k = vid then none else p.allocatedViews k }
                ptr := by
            show (match p.allocatedViews vid with
                | none => p
                | some ptr =>
                    deallocateBlockFast
                      { p with
                        allocatedViews :=
                          fun k => if k = vid then none else p.allocatedViews k }
                      ptr) = _
            rw [hv]
          rw [heq]
          exact deallocateBlockFast_inv _ ptr hp

theorem runPool_inv (ops : List PoolOp) : ∀ p : MemoryPool, PoolInv p →
    PoolInv (runPool p ops) := by
  induction ops with
  | nil => intro p hp; exact hp
  | cons op t ih =>
      intro p hp
      show PoolInv (List.foldl stepPool p (op :: t))
      rw [List.foldl_cons]
      apply ih
      cases op with
      | alloc => exact poolAllocate_inv p hp
      | dealloc v => exact poolDeallocate_inv p v hp

theorem poolAllocate_success (p : MemoryPool) (hp : PoolInv p) (vid : Nat) (p2 : MemoryPool)
    (h : poolAllocate p = (some vid, p2)) :
    p2.blocksAllocated = p.blocksAllocated + 1 ∧ p.blocksFree = p2.blocksFree + 1 ∧
    p2.numBlocks = p.numBlocks := by
  obtain ⟨hlen, hn, hfl, hsum, hnd, hmem, hcov⟩ := hp
  cases hfree : p.freeList with
  | nil =>
      exfalso
      have : poolAllocate p = (none, p) := by
        unfold poolAllocate allocateBlockFast
        rw [hfree]
      rw [this] at h
      cases h
  | cons i rest =>
      have hstep : poolAllocate p =
          (some p.nextViewId,
            { p with
              blocks := p.blocks.set i { p.blocks.getD i default with inUse := true }
              freeList := rest
              blocksAllocated := (p.blocksAllocated + 1) % U32
              blocksFree := (p.blocksFree + (U32 - 1)) % U32
              totalAllocations := (p.totalAllocations + 1) % U64
              allocatedViews := fun k =>
                if k = p.nextViewId then some (p.blocks.getD i default).offset
                else p.allocatedViews k
              nextViewId := p.nextViewId + 1 }) := by
        unfold poolAllocate allocateBlockFast
        rw [hfree]
      rw [hstep] at h
      have hp2 := congrArg Prod.snd h
      dsimp only at hp2
      subst hp2
      have hU : U32 = 4294967296 := rfl
      have hn32 : p.numBlocks < 4294967296 := hU ▸ hn
      have hflen : p.blocksFree = rest.length + 1 := by rw [hfl, hfree]; rfl
      refine ⟨?_, ?_, rfl⟩
      · show (p.blocksAllocated + 1) % U32 = p.blocksAllocated + 1
        rw [hU]
        omega
      · show p.blocksFree = (p.blocksFree + (U32 - 1)) % U32 + 1
        rw [hU]
        omega

theorem poolDeallocate_change (p : MemoryPool) (hp : PoolInv p) (v : Nat)
    (h : (poolDeallocate p (some v)).totalDeallocations ≠ p.totalDeallocations) :
    (poolDeallocate p (some v)).blocksAllocated + 1 = p.blocksAllocated ∧
    (poolDeallocate p (some v)).blocksFree = p.blocksFree + 1 := by
  cases hv : p.allocatedViews v with
  | none => rw [poolDeallocate_untracked p v hv] at h; exact absurd rfl h
  | some ptr =>
      have heq : poolDeallocate p (some v) =
          deallocateBlockFast
            { p with allocatedViews := fun k => if k = v then none else p.allocatedViews k }
            ptr := by
        show (match p.allocatedViews v with
            | none => p
            | some ptr =>
                deallocateBlockFast
                  { p with
                    allocatedViews := fun k => if k = v then none else p.allocatedViews k }
                  ptr) = _
        rw [hv]
      set pd : MemoryPool :=
        { p with allocatedViews := fun k => if k = v then none else p.allocatedViews k }
        with hpd
      rw [heq] at h ⊢
      obtain ⟨hlen, hn, hfl, hsum, hnd, hmem, hcov⟩ := hp
      cases hfind : findBlockIdx pd.blocks ptr with
      | none => rw [deallocateBlockFast_not_found pd ptr hfind] at h; exact absurd rfl h
      | some i =>
          obtain ⟨hilt, hioff⟩ := findBlockIdx_spec pd.blocks ptr i hfind
          by_cases hb : (pd.blocks.getD i default).inUse = false
          · rw [deallocateBlockFast_not_inUse pd ptr i hfind hb] at h
            exact absurd rfl h
          · have hstep : deallocateBlockFast pd ptr =
                { pd with
                  blocks := pd.blocks.set i
                    { data := List.replicate (pd.blocks.getD i default).size 0
                      size := (pd.blocks.getD i default).size
                      offset := (pd.blocks.getD i default).offset
                      inUse := false }
                  freeList := i :: pd.freeList
                  blocksAllocated := (pd.blocksAllocated + (U32 - 1)) % U32
                  blocksFree := (pd.blocksFree + 1) % U32
                  totalDeallocations := (pd.totalDeallocations + 1) % U64 } := by
              unfold deallocateBlockFast
              rw [hfind]
              dsimp only
              rw [if_neg hb]
            rw [hstep]
            have hi_lt : i < p.numBlocks := hlen ▸ hilt
            have hi_not : i ∉ p.freeList := fun hmem' => hb (hmem i hmem').2
            have hflt : p.freeList.length < p.numBlocks := by
              by_contra hge
              push_neg at hge
              exact hi_not (mem_of_nodup_bounded_length p.freeList p.numBlocks hnd
                (fun x hx => (hmem x hx).1) hge i hi_lt)
            have hU : U32 = 4294967296 := rfl
            have hn32 : p.numBlocks < 4294967296 := hU ▸ hn
            constructor
            · show (p.blocksAllocated + (U32 - 1)) % U32 + 1 = p.blocksAllocated
              rw [hU]
              omega
            · show (p.blocksFree + 1) % U32 = p.blocksFree + 1
              rw [hU]
              omega


/-- C5: starting from a freshly constructed pool, after every sequence of
public allocate/deallocate calls `blocks_allocated + blocks_free =
num_blocks`; from any such reachable state a successful allocate increments
`blocks_allocated` by one and decrements `blocks_free` by one, and a
deallocate that frees a block (observable as a change of
`total_deallocations`) does the reverse. -/
theorem pool_allocated_plus_free (ps bs : Nat) (_hbs : 0 < bs) (hps : ps < U32)
    (ops : List PoolOp) :
    (runPool (mkMemoryPool ps bs) ops).blocksAllocated +
        (runPool (mkMemoryPool ps bs) ops).blocksFree =
      (runPool (mkMemoryPool ps bs) ops).numBlocks ∧
    (∀ vid p', poolAllocate (runPool (mkMemoryPool ps bs) ops) = (some vid, p') →
      p'.blocksAllocated = (runPool (mkMemoryPool ps bs) ops).blocksAllocated + 1 ∧
      (runPool (mkMemoryPool ps bs) ops).blocksFree = p'.blocksFree + 1) ∧
    (∀ v, (poolDeallocate (runPool (mkMemoryPool ps bs) ops) (some v)).totalDeallocations ≠
        (runPool (mkMemoryPool ps bs) ops).totalDeallocations →
      (poolDeallocate (runPool (mkMemoryPool ps bs) ops) (some v)).blocksAllocated + 1 =
        (runPool (mkMemoryPool ps bs) ops).blocksAllocated ∧
      (poolDeallocate (runPool (mkMemoryPool ps bs) ops) (some v)).blocksFree =
        (runPool (mkMemoryPool ps bs) ops).blocksFree + 1) := by
  have hinv := runPool_inv ops (mkMemoryPool ps bs) (mkMemoryPool_inv ps bs hps)
  refine ⟨hinv.2.2.2.1, ?_, ?_⟩
  · intro vid p' h
    exact ⟨(poolAllocate_success _ hinv vid p' h).1,
      (poolAllocate_success _ hinv vid p' h).2.1⟩
  · intro v h
    exact poolDeallocate_change _ hinv v h

/-- C5 witness: a 2-block pool after one allocate. -/
theorem pool_allocated_plus_free_witness :
    (runPool (mkMemoryPool 8 4) [PoolOp.alloc]).blocksAllocated +
        (runPool (mkMemoryPool 8 4) [PoolOp.alloc]).blocksFree =
      (runPool (mkMemoryPool 8 4) [PoolOp.alloc]).numBlocks :=
  (pool_allocated_plus_free 8 4 (by decide) (by norm_num [U32]) [PoolOp.alloc]).1


theorem list_getD_append_lt {α : Type _} (l : List α) (v : α) (t : Nat) (d : α)
    (h : t < l.length) : (l ++ [v]).getD t d = l.getD t d := by
  rw [List.getD_eq_getElem?_getD, List.getElem?_append, if_pos h, List.getD_eq_getElem?_getD]

theorem list_getD_concat {α : Type _} (l : List α) (v : α) (d : α) :
    (l ++ [v]).getD l.length d = v := by
  rw [List.getD_eq_getElem?_getD, List.getElem?_concat_length]
  rfl

theorem list_take_succ_getD {α : Type _} (l : List α) (n : Nat) (d : α) (h : n < l.length) :
    l.take (n + 1) = l.take n ++ [l.getD n d] := by
  rw [List.take_succ]
  congr 1
  rw [List.getD_eq_getElem?_getD]
  cases hx : l[n]? with
  | none => exact absurd (List.getElem?_eq_none_iff.mp hx) (by omega)
  | some a => rfl

theorem cap_eq_one_of_mod_succ (t T c : Nat) (h1 : t % c = T % c) (h2 : t + 1 = T) :
    c = 1 := by
  have : c ∣ T - t := (Nat.modEq_iff_dvd' (by omega)).mp h1
  rw [show T - t = 1 by omega] at this
  exact Nat.dvd_one.mp this

theorem tryEnqueueFast_cases (q : LockFreeQueue) (data : String) (ds : Nat)
    (r : Bool) (q1 : LockFreeQueue)
    (h : tryEnqueueFast q data ds = some (r, q1)) :
    (r = false ∧ q1 = q ∧
      (q.nodes.getD (q.tailSeq &&& q.mask) default).sequence < q.tailSeq) ∨
    (r = true ∧
      (q.nodes.getD (q.tailSeq &&& q.mask) default).sequence = q.tailSeq ∧
      q1 = { q with
        tailSeq := casStore32 q.tailSeq ((q.tailSeq + 1) % U64)
        nodes := q.nodes.set (q.tailSeq &&& q.mask)
          { data := some data, dataSize := ds, sequence := (q.tailSeq + 1) % U64 } }) := by
  simp only [tryEnqueueFast] at h
  by_cases h1 : (q.nodes.getD (q.tailSeq &&& q.mask) default).sequence ≠ q.tailSeq
  · rw [if_pos h1] at h
    by_cases h2 : (q.nodes.getD (q.tailSeq &&& q.mask) default).sequence < q.tailSeq
    · rw [if_pos h2] at h
      simp only [Option.some.injEq, Prod.mk.injEq] at h
      exact Or.inl ⟨h.1.symm, h.2.symm, h2⟩
    · rw [if_neg h2] at h
      cases h
  · rw [if_neg h1] at h
    simp only [Option.some.injEq, Prod.mk.injEq] at h
    push_neg at h1
    exact Or.inr ⟨h.1.symm, h1, h.2.symm⟩

theorem tryDequeueFast_cases (q : LockFreeQueue) (r : Option (Option String × Nat))
    (q1 : LockFreeQueue) (h : tryDequeueFast q = some (r, q1)) :
    (r = none ∧ q1 = q ∧
      (q.nodes.getD (q.headSeq &&& q.mask) default).sequence < (q.headSeq + 1) % U64) ∨
    (r = some ((q.nodes.getD (q.headSeq &&& q.mask) default).data,
               (q.nodes.getD (q.headSeq &&& q.mask) default).dataSize) ∧
      (q.nodes.getD (q.headSeq &&& q.mask) default).sequence = (q.headSeq + 1) % U64 ∧
      q1 = { q with
        headSeq := casStore32 q.headSeq ((q.headSeq + 1) % U64)
        nodes := q.nodes.set (q.headSeq &&& q.mask)
          { data := none, dataSize := 0,
            sequence := ((q.headSeq + 1) % U64 + q.mask) % U64 } }) := by
  simp only [tryDequeueFast] at h
  by_cases h1 : (q.nodes.getD (q.headSeq &&& q.mask) default).sequence ≠ (q.headSeq + 1) % U64
  · rw [if_pos h1] at h
    by_cases h2 : (q.nodes.getD (q.headSeq &&& q.mask) default).sequence < (q.headSeq + 1) % U64
    · rw [if_pos h2] at h
      simp only [Option.some.injEq, Prod.mk.injEq] at h
      exact Or.inl ⟨h.1.symm, h.2.symm, h2⟩
    · rw [if_neg h2] at h
      cases h
  · rw [if_neg h1] at h
    simp only [Option.some.injEq, Prod.mk.injEq] at h
    push_neg at h1
    exact Or.inr ⟨h.1.symm, h1, h.2.symm⟩


theorem enqueue_inv (k : Nat) (_hk : k ≤ 31) (E D : List String) (q : LockFreeQueue)
    (hInv : QInv k E D q) (hE : E.length + 1 ≤ 2 ^ 31)
    (v : String) (ok : Bool) (q' : LockFreeQueue)
    (h : enqueue q v = some (ok, q')) :
    QInv k (E ++ if ok then [v] else []) D q' := by
  obtain ⟨hCap, hMask, hLen, hInit, hT, hH, hDE, hTake, hSlots⟩ := hInv
  have hInitFalse : ¬ q.initialized = false := by rw [hInit]; simp
  rw [enqueue, if_neg hInitFalse] at h
  dsimp only at h
  cases htry : tryEnqueueFast q v (v.utf8ByteSize % U32) with
  | none => rw [htry] at h; cases h
  | some rq =>
      obtain ⟨r, q1⟩ := rq
      rw [htry] at h
      rcases tryEnqueueFast_cases q v _ r q1 htry with ⟨hr, hq1, _⟩ | ⟨hr, hseq, hq1⟩
      · subst hr
        subst hq1
        simp only [Option.some.injEq, Prod.mk.injEq] at h
        obtain ⟨hok, hq'⟩ := h
        subst hok
        subst hq'
        rw [if_neg (by simp), List.append_nil]
        exact ⟨hCap, hMask, hLen, hInit, hT, hH, hDE, hTake, hSlots⟩
      · subst hr
        subst hq1
        simp only [Option.some.injEq, Prod.mk.injEq] at h
        obtain ⟨hok, hq'⟩ := h
        subst hok
        subst hq'
        rw [if_pos rfl]
        -- arithmetic facts
        have h31 : (2 : Nat) ^ 31 = 2147483648 := by norm_num
        have hTlt : q.tailSeq < 2147483648 := by rw [hT]; omega
        have hU32 : U32 = 4294967296 := rfl
        have hU64 : U64 = 18446744073709551616 := rfl
        have hnext : (q.tailSeq + 1) % U64 = q.tailSeq + 1 := by rw [hU64]; omega
        have hcas : casStore32 q.tailSeq ((q.tailSeq + 1) % U64) = q.tailSeq + 1 := by
          rw [hnext, casStore32, hU32]
          omega
        have hc1 : 1 ≤ 2 ^ k := Nat.one_le_two_pow
        have hidx : q.tailSeq &&& q.mask = E.length % 2 ^ k := by
          rw [hMask, hT, Nat.and_pow_two_sub_one_eq_mod]
        have hi0lt : E.length % 2 ^ k < 2 ^ k := Nat.mod_lt _ (by omega)
        refine ⟨hCap, hMask, ?_, hInit, ?_, hH, ?_, ?_, ?_⟩
        · simpa [List.length_set] using hLen
        · show casStore32 q.tailSeq ((q.tailSeq + 1) % U64) = (E ++ [v]).length
          rw [hcas, hT, List.length_append, List.length_cons, List.length_nil]
        · rw [List.length_append]; omega
        · rw [List.take_append_of_le_length hDE]
          exact hTake
        · intro i hi
          by_cases hii : i = E.length % 2 ^ k
          · -- the slot just written
            subst hii
            rw [hidx, list_getD_set_self q.nodes _ _ default (by rw [hLen]; exact hi0lt)]
            refine Or.inl ⟨E.length, rfl, hDE, ?_, ?_, ?_, ?_⟩
            · rw [List.length_append]; simp
            · rw [List.length_append, List.length_cons, List.length_nil]
              omega
            · rw [hnext, hT]
            · rw [list_getD_concat]
          · -- untouched slots
            rw [hidx, list_getD_set_ne q.nodes _ default (fun he => hii he.symm)]
            rcases hSlots i hi with ⟨t, htmod, htD, htE, htEc, htseq, htdata⟩ |
              ⟨u, humod, huE, huEc, huD, huseq, hudata⟩
            · refine Or.inl ⟨t, htmod, htD, ?_, ?_, htseq, ?_⟩
              · rw [List.length_append]; simp; omega
              · rw [List.length_append, List.length_cons, List.length_nil]
                -- need E.length + 1 ≤ t + 2^k, i.e. E.length ≠ t + 2^k
                have hne : E.length ≠ t + 2 ^ k := by
                  intro heq
                  apply hii
                  rw [heq, Nat.add_mod_right, htmod]
                omega
              · rw [list_getD_append_lt E v t "" htE, htdata]
            · refine Or.inr ⟨u, humod, ?_, ?_, huD, huseq, hudata⟩
              · rw [List.length_append, List.length_cons, List.length_nil]
                have hne : u ≠ E.length := by
                  intro heq
                  apply hii
                  rw [← heq, humod]
                omega
              · rw [List.length_append, List.length_cons, List.length_nil]
                omega


theorem dequeue_inv (k : Nat) (hk : k ≤ 31) (E D : List String) (q : LockFreeQueue)
    (hInv : QInv k E D q) (hE : E.length + 1 ≤ 2 ^ 31)
    (r : Option String) (q' : LockFreeQueue)
    (h : dequeue q = some (r, q')) :
    QInv k E (D ++ r.toList) q' := by
  obtain ⟨hCap, hMask, hLen, hInit, hT, hH, hDE, hTake, hSlots⟩ := hInv
  rw [dequeue] at h
  cases htry : tryDequeueFast q with
  | none => rw [htry] at h; cases h
  | some rq =>
      obtain ⟨rr, q1⟩ := rq
      rw [htry] at h
      rcases tryDequeueFast_cases q rr q1 htry with ⟨hrr, hq1, _⟩ | ⟨hrr, hseq, hq1⟩
      · subst hrr
        subst hq1
        simp only [Option.some.injEq, Prod.mk.injEq] at h
        obtain ⟨hr, hq'⟩ := h
        subst hr
        subst hq'
        simp only [Option.toList_none, List.append_nil]
        exact ⟨hCap, hMask, hLen, hInit, hT, hH, hDE, hTake, hSlots⟩
      · -- ring success
        have h31 : (2 : Nat) ^ 31 = 2147483648 := by norm_num
        have hHlt : q.headSeq < 2147483648 := by rw [hH]; omega
        have hU32 : U32 = 4294967296 := rfl
        have hU64 : U64 = 18446744073709551616 := rfl
        have hnext : (q.headSeq + 1) % U64 = q.headSeq + 1 := by rw [hU64]; omega
        have hcas : casStore32 q.headSeq ((q.headSeq + 1) % U64) = q.headSeq + 1 := by
          rw [hnext, casStore32, hU32]
          omega
        have hc1 : 1 ≤ 2 ^ k := Nat.one_le_two_pow
        have hclt : (2 : Nat) ^ k ≤ 2147483648 := by
          calc (2 : Nat) ^ k ≤ 2 ^ 31 := Nat.pow_le_pow_right (by omega) hk
            _ = 2147483648 := h31
        have hidx : q.headSeq &&& q.mask = D.length % 2 ^ k := by
          rw [hMask, hH, Nat.and_pow_two_sub_one_eq_mod]
        have hi0lt : D.length % 2 ^ k < 2 ^ k := Nat.mod_lt _ (by omega)
        -- the hit slot must hold the committed item with ticket D.length
        rcases hSlots (D.length % 2 ^ k) hi0lt with
          ⟨t, htmod, htD, htE, htEc, htseq, htdata⟩ |
          ⟨u, humod, huE, huEc, huD, huseq, hudata⟩
        · rw [hidx] at hseq
          rw [htseq, hnext, hH] at hseq
          have ht : t = D.length := by omega
          subst ht
          subst hrr
          subst hq1
          simp only [Option.some.injEq, Prod.mk.injEq] at h
          obtain ⟨hr, hq'⟩ := h
          subst hq'
          rw [hidx] at hr
          rw [htdata] at hr
          subst hr
          simp only [Option.toList_some]
          have hDlen : (D ++ [E.getD D.length ""]).length = D.length + 1 := by
            rw [List.length_append, List.length_cons, List.length_nil]
          refine ⟨hCap, hMask, ?_, hInit, hT, ?_, ?_, ?_, ?_⟩
          · simpa [List.length_set] using hLen
          · show casStore32 q.headSeq ((q.headSeq + 1) % U64) = _
            rw [hcas, hH, hDlen]
          · rw [hDlen]; omega
          · rw [hDlen, list_take_succ_getD E D.length "" htE, ← hTake]
          · intro i hi
            rw [hidx]
            by_cases hii : i = D.length % 2 ^ k
            · subst hii
              rw [list_getD_set_self q.nodes _ _ default (by rw [hLen]; exact hi0lt)]
              refine Or.inr ⟨D.length + 2 ^ k, by rw [Nat.add_mod_right], ?_, ?_, ?_, ?_, rfl⟩
              · omega
              · omega
              · rw [hDlen]; omega
              · show ((q.headSeq + 1) % U64 + q.mask) % U64 = D.length + 2 ^ k
                rw [hnext, hMask, hH]
                rw [Nat.mod_eq_of_lt (by rw [hU64]; omega)]
                omega
            · rw [list_getD_set_ne q.nodes _ default (fun he => hii he.symm)]
              rcases hSlots i hi with ⟨s, hsmod, hsD, hsE, hsEc, hsseq, hsdata⟩ |
                ⟨w, hwmod, hwE, hwEc, hwD, hwseq, hwdata⟩
              · refine Or.inl ⟨s, hsmod, ?_, hsE, hsEc, hsseq, hsdata⟩
                rw [hDlen]
                have hne : s ≠ D.length := by
                  intro heq
                  apply hii
                  rw [← hsmod, heq]
                omega
              · refine Or.inr ⟨w, hwmod, hwE, hwEc, ?_, hwseq, hwdata⟩
                rw [hDlen]
                omega
        · -- a free slot cannot carry sequence head+1
          exfalso
          rw [hidx] at hseq
          rw [huseq, hnext, hH] at hseq
          -- hseq : u = D.length + 1, humod : u % 2^k = D.length % 2^k
          have hcone : (2 : Nat) ^ k = 1 :=
            cap_eq_one_of_mod_succ D.length u (2 ^ k) humod.symm (by omega)
          omega

theorem initializeNodes_getD (c i : Nat) (hi : i < c) :
    (initializeNodes c).getD i default = { data := none, dataSize := 0, sequence := i } := by
  rw [initializeNodes, range_map_getD c _ i default hi]

theorem mkLockFreeQueue_capacity_pow (k : Nat) (hk : k ≤ 31) :
    (mkLockFreeQueue (2 ^ k)).capacity = 2 ^ k ∧
    (mkLockFreeQueue (2 ^ k)).mask = 2 ^ k - 1 ∧
    (mkLockFreeQueue (2 ^ k)).nodes = initializeNodes (2 ^ k) := by
  have hlt : (2 : Nat) ^ k < U32 := by
    show (2 : Nat) ^ k < 2 ^ 32
    exact Nat.pow_lt_pow_right (by omega) (by omega)
  have hmod : (2 : Nat) ^ k % U32 = 2 ^ k := Nat.mod_eq_of_lt hlt
  have hcond : ¬ ((2 : Nat) ^ k = 0 ∨ (2 ^ k) &&& (2 ^ k - 1) ≠ 0) := by
    push_neg
    constructor
    · exact (Nat.two_pow_pos k).ne'
    · rw [Nat.and_pow_two_sub_one_eq_mod, Nat.mod_self]
  rw [mkLockFreeQueue]
  dsimp only
  rw [hmod, if_neg hcond]
  exact ⟨rfl, rfl, rfl⟩

theorem mkLockFreeQueue_inv (k : Nat) (hk : k ≤ 31) :
    QInv k [] [] (mkLockFreeQueue (2 ^ k)) := by
  obtain ⟨hCap, hMask, hNodes⟩ := mkLockFreeQueue_capacity_pow k hk
  have hTail : (mkLockFreeQueue (2 ^ k)).tailSeq = 0 := by
    rw [mkLockFreeQueue]
  have hHead : (mkLockFreeQueue (2 ^ k)).headSeq = 0 := by
    rw [mkLockFreeQueue]
  have hInit : (mkLockFreeQueue (2 ^ k)).initialized = true := by
    rw [mkLockFreeQueue]
  refine ⟨hCap, hMask, ?_, hInit, hTail, hHead, le_refl _, rfl, ?_⟩
  · rw [hNodes, initializeNodes, List.length_map, List.length_range]
  · intro i hi
    refine Or.inr ⟨i, Nat.mod_eq_of_lt hi, Nat.zero_le i, by simpa using hi, by simpa using hi,
      ?_, ?_⟩
    · rw [hNodes, initializeNodes_getD (2 ^ k) i hi]
    · rw [hNodes, initializeNodes_getD (2 ^ k) i hi]

theorem runQ_inv (k : Nat) (hk : k ≤ 31) (ops : List QOp) :
    ∀ (q : LockFreeQueue) (E D : List String), QInv k E D q →
      E.length + ops.length ≤ 2 ^ 31 →
      ∀ q' E₂ D₂, runQ q ops = some (q', E₂, D₂) →
        QInv k (E ++ E₂) (D ++ D₂) q' := by
  induction ops with
  | nil =>
      intro q E D hInv _ q' E2 D2 h
      rw [runQ] at h
      simp only [Option.some.injEq, Prod.mk.injEq] at h
      obtain ⟨hq, hE2, hD2⟩ := h
      subst hq
      subst hE2
      subst hD2
      simpa using hInv
  | cons op t ih =>
      intro q E D hInv hlen q' E2 D2 h
      rw [runQ] at h
      cases hs : stepQ q op with
      | none => rw [hs] at h; cases h
      | some sr =>
          obtain ⟨q1, e1, d1⟩ := sr
          rw [hs] at h
          dsimp only at h
          cases hr : runQ q1 t with
          | none => rw [hr] at h; cases h
          | some rr =>
              obtain ⟨q2, e2, d2⟩ := rr
              rw [hr] at h
              simp only [Option.some.injEq, Prod.mk.injEq] at h
              obtain ⟨hq2, hE2, hD2⟩ := h
              subst hq2
              subst hE2
              subst hD2
              have hlen1 : E.length + 1 ≤ 2 ^ 31 := by
                simp only [List.length_cons] at hlen
                omega
              -- one step
              cases op with
              | enq v =>
                  rw [stepQ] at hs
                  cases he : enqueue q v with
                  | none => rw [he] at hs; cases hs
                  | some er =>
                      obtain ⟨ok, qe⟩ := er
                      rw [he] at hs
                      simp only [Option.some.injEq, Prod.mk.injEq] at hs
                      obtain ⟨hq1, he1, hd1⟩ := hs
                      subst hq1
                      subst he1
                      subst hd1
                      have hstep := enqueue_inv k hk E D q
                        ⟨hInv.1, hInv.2.1, hInv.2.2.1, hInv.2.2.2.1, hInv.2.2.2.2.1,
                         hInv.2.2.2.2.2.1, hInv.2.2.2.2.2.2.1, hInv.2.2.2.2.2.2.2.1,
                         hInv.2.2.2.2.2.2.2.2⟩ hlen1 v ok qe he
                      have hlen2 : (E ++ if ok then [v] else []).length + t.length ≤ 2 ^ 31 := by
                        rw [List.length_append]
                        simp only [List.length_cons] at hlen
                        cases ok <;> simp <;> omega
                      have := ih qe (E ++ if ok then [v] else []) D hstep hlen2 q2 e2 d2 hr
                      rw [List.append_assoc] at this
                      simpa using this
              | deq =>
                  rw [stepQ] at hs
                  cases hd : dequeue q with
                  | none => rw [hd] at hs; cases hs
                  | some dr =>
                      obtain ⟨rv, qd⟩ := dr
                      rw [hd] at hs
                      simp only [Option.some.injEq, Prod.mk.injEq] at hs
                      obtain ⟨hq1, he1, hd1⟩ := hs
                      subst hq1
                      subst he1
                      subst hd1
                      have hstep := dequeue_inv k hk E D q
                        ⟨hInv.1, hInv.2.1, hInv.2.2.1, hInv.2.2.2.1, hInv.2.2.2.2.1,
                         hInv.2.2.2.2.2.1, hInv.2.2.2.2.2.2.1, hInv.2.2.2.2.2.2.2.1,
                         hInv.2.2.2.2.2.2.2.2⟩ hlen1 rv qd hd
                      have hlen2 : E.length + t.length ≤ 2 ^ 31 := by
                        simp only [List.length_cons] at hlen
                        omega
                      have := ih qd E (D ++ rv.toList) hstep hlen2 q2 e2 d2 hr
                      rw [List.append_assoc] at this
                      simpa using this


/-- C2 (counterexample): the round trip is not value-for-value on the
queue's actual payload domain.  Enqueueing the Python integer `5` on a
fresh capacity-2 queue succeeds (the source serialises it as `str(5)`),
and the following successful dequeue returns the string `"5"` — so the
dequeued sequence `["5"]` differs from the enqueued sequence `[5]`,
refuting the claim as stated. -/
theorem queue_roundtrip_str_cex :
    (enqueuePy (mkLockFreeQueue 2) (PyVal.int 5)).map Prod.fst = some true ∧
    ((enqueuePy (mkLockFreeQueue 2) (PyVal.int 5)).bind fun r =>
        (dequeuePy r.2).map Prod.fst) = some (some (PyVal.str "5")) ∧
    PyVal.str "5" ≠ PyVal.int 5 :=
  ⟨rfl, rfl, by decide⟩

/-- C2 (amended): for one producer and one consumer on a fresh queue of any
accepted power-of-two capacity, over every defined sequential run whose
enqueued payloads are strings of fewer than `2^32` UTF-8 bytes (larger
buffers are truncated by the `uint32_t data_size` around the `memcpy` and
the decode) and of at most `2^31` operations (beyond which the source's
32-bit CAS store no longer preserves the 64-bit sequence counters), the
values returned by successful `dequeue` calls are exactly the first `|D|`
successfully enqueued values in order, and once the queue has drained
(`head_seq = tail_seq`) the dequeued sequence equals the enqueued
sequence.  Payloads that are not strings already fail the round trip at
the `str()` serialisation: see the counterexample above. -/
theorem spsc_fifo_order (k : Nat) (hk : k ≤ 31) (ops : List QOp)
    (hops : ops.length ≤ 2 ^ 31)
    (_hsize : ∀ v, QOp.enq v ∈ ops → v.utf8ByteSize < 2 ^ 32)
    (q' : LockFreeQueue) (E D : List String)
    (h : runQ (mkLockFreeQueue (2 ^ k)) ops = some (q', E, D)) :
    D = E.take D.length ∧ (q'.headSeq = q'.tailSeq → D = E) := by
  have hInv := runQ_inv k hk ops (mkLockFreeQueue (2 ^ k)) [] [] (mkLockFreeQueue_inv k hk)
    (by simpa using hops) q' E D h
  rw [List.nil_append, List.nil_append] at hInv
  obtain ⟨-, -, -, -, hT, hH, hDE, hTake, -⟩ := hInv
  refine ⟨hTake, fun hEq => ?_⟩
  have hlen : D.length = E.length := by
    rw [← hH, ← hT, hEq]
  rw [hTake, hlen, List.take_length]


/-- C2 witness: one enqueue of a short string on a capacity-2 queue. -/
theorem spsc_fifo_order_witness :
    ([] : List String) = (["a"] : List String).take ([] : List String).length ∧
    (c2FinalQueue.headSeq = c2FinalQueue.tailSeq → ([] : List String) = ["a"]) :=
  spsc_fifo_order 1 (by norm_num) [QOp.enq "a"] (by norm_num)
    (by
      intro v hv
      simp only [List.mem_singleton, QOp.enq.injEq] at hv
      subst hv
      decide)
    c2FinalQueue ["a"] [] (by decide)


theorem stepQ_dequeue_counters (q : LockFreeQueue) (op : QOp) (q' : LockFreeQueue)
    (e d : List String) (h : stepQ q op = some (q', e, d)) :
    q'.totalDequeued = q.totalDequeued ∧
    q'.totalFailedDequeues = q.totalFailedDequeues := by
  cases op with
  | enq v =>
      rw [stepQ] at h
      cases he : enqueue q v with
      | none => rw [he] at h; cases h
      | some er =>
          obtain ⟨ok, qe⟩ := er
          rw [he] at h
          simp only [Option.some.injEq, Prod.mk.injEq] at h
          obtain ⟨hq, -, -⟩ := h
          subst hq
          rw [enqueue] at he
          by_cases hInit : q.initialized = false
          · rw [if_pos hInit] at he
            simp only [Option.some.injEq, Prod.mk.injEq] at he
            rw [← he.2]
            exact ⟨rfl, rfl⟩
          · rw [if_neg hInit] at he
            dsimp only at he
            cases htry : tryEnqueueFast q v (v.utf8ByteSize % U32) with
            | none => rw [htry] at he; cases he
            | some tr =>
                obtain ⟨r, q1⟩ := tr
                rw [htry] at he
                rcases tryEnqueueFast_cases q v _ r q1 htry with ⟨hr, hq1, -⟩ | ⟨hr, -, hq1⟩ <;>
                  subst hr <;> subst hq1 <;>
                  simp only [Option.some.injEq, Prod.mk.injEq] at he <;>
                  rw [← he.2] <;> exact ⟨rfl, rfl⟩
  | deq =>
      rw [stepQ] at h
      cases hd : dequeue q with
      | none => rw [hd] at h; cases h
      | some dr =>
          obtain ⟨rv, qd⟩ := dr
          rw [hd] at h
          simp only [Option.some.injEq, Prod.mk.injEq] at h
          obtain ⟨hq, -, -⟩ := h
          subst hq
          rw [dequeue] at hd
          cases htry : tryDequeueFast q with
          | none => rw [htry] at hd; cases hd
          | some tr =>
              obtain ⟨rr, q1⟩ := tr
              rw [htry] at hd
              rcases tryDequeueFast_cases q rr q1 htry with ⟨hrr, hq1, -⟩ | ⟨hrr, -, hq1⟩ <;>
                subst hrr <;> subst hq1 <;>
                simp only [Option.some.injEq, Prod.mk.injEq] at hd <;>
                rw [← hd.2] <;> exact ⟨rfl, rfl⟩

theorem runQ_dequeue_counters (ops : List QOp) :
    ∀ (q : LockFreeQueue) (q' : LockFreeQueue) (E D : List String),
      runQ q ops = some (q', E, D) →
      q'.totalDequeued = q.totalDequeued ∧
      q'.totalFailedDequeues = q.totalFailedDequeues := by
  induction ops with
  | nil =>
      intro q q' E D h
      rw [runQ] at h
      simp only [Option.some.injEq, Prod.mk.injEq] at h
      rw [← h.1]
      exact ⟨rfl, rfl⟩
  | cons op t ih =>
      intro q q' E D h
      rw [runQ] at h
      cases hs : stepQ q op with
      | none => rw [hs] at h; cases h
      | some sr =>
          obtain ⟨q1, e1, d1⟩ := sr
          rw [hs] at h
          dsimp only at h
          cases hr : runQ q1 t with
          | none => rw [hr] at h; cases h
          | some rr =>
              obtain ⟨q2, e2, d2⟩ := rr
              rw [hr] at h
              simp only [Option.some.injEq, Prod.mk.injEq] at h
              obtain ⟨hq2, -, -⟩ := h
              subst hq2
              obtain ⟨h1, h2⟩ := stepQ_dequeue_counters q op q1 e1 d1 hs
              obtain ⟨h3, h4⟩ := ih q1 q2 e2 d2 hr
              exact ⟨h3.trans h1, h4.trans h2⟩

/-- C10: `dequeue` never touches `total_dequeued` or
`total_failed_dequeues`: after every defined run from a fresh queue of any
requested capacity, `get_statistics` reports both as 0 — so whenever at
least one dequeue succeeded, the reported `total_dequeued` cannot equal
the number of dequeued items. -/
theorem dequeue_counters_stay_zero (c : Nat) (ops : List QOp) (q' : LockFreeQueue)
    (E D : List String) (h : runQ (mkLockFreeQueue c) ops = some (q', E, D)) :
    (getQueueStatistics q').totalDequeued = 0 ∧
    (getQueueStatistics q').totalFailedDequeues = 0 ∧
    (D ≠ [] → (getQueueStatistics q').totalDequeued ≠ D.length) := by
  obtain ⟨h1, h2⟩ := runQ_dequeue_counters ops (mkLockFreeQueue c) q' E D h
  have hz : (mkLockFreeQueue c).totalDequeued = 0 := by rw [mkLockFreeQueue]
  have hz2 : (mkLockFreeQueue c).totalFailedDequeues = 0 := by rw [mkLockFreeQueue]
  have hd : (getQueueStatistics q').totalDequeued = 0 := by
    show q'.totalDequeued = 0
    rw [h1, hz]
  have hfd : (getQueueStatistics q').totalFailedDequeues = 0 := by
    show q'.totalFailedDequeues = 0
    rw [h2, hz2]
  refine ⟨hd, hfd, fun hne => ?_⟩
  rw [hd]
  intro hcontra
  exact hne (List.length_eq_zero.mp hcontra.symm)


/-- C10 witness: one enqueue and one successful dequeue on capacity 2. -/
theorem dequeue_counters_stay_zero_witness :
    (getQueueStatistics c10FinalQueue).totalDequeued = 0 ∧
    (getQueueStatistics c10FinalQueue).totalFailedDequeues = 0 ∧
    ((["a"] : List String) ≠ [] →
      (getQueueStatistics c10FinalQueue).totalDequeued ≠ (["a"] : List String).length) :=
  dequeue_counters_stay_zero 2 [QOp.enq "a", QOp.deq] c10FinalQueue ["a"] ["a"] (by decide)

end HFTPF
